import Mathlib

/-!
Verification of the zephyr-route BGP wire-format codec.

The definitions below are a shallow embedding of the Rust sources
(src/io.rs, src/error.rs, src/bgp/mod.rs, src/bgp/error.rs,
src/bgp/opt_params.rs, src/bgp/path_attr.rs), compiled with the
bgp, bgp_route_refresh and bgp_multiprotocol features enabled.
Machine integers are modelled as Nat with explicit reductions mod 2^w
at the points where the source casts or stores them; diagnostic message
strings carried by errors are not modelled, only the structured error
kind. Decode functions return a result that can also record a crash:
a panicking unwrap or an unchecked transmute applied to an undeclared
discriminant (undefined behavior), outcomes the Rust Result type does
not capture but the source can produce.
-/

namespace ZephyrRoute

/-- Byte order of a buffer (src/io.rs, enum ByteOrder). -/
inductive ByteOrder where
  | BigEndian
  | LittleEndian
deriving DecidableEq

/-- Owned byte sequence plus cursor position and byte order (src/io.rs, struct Buffer).
Bytes are Nat; the u8 element type is modelled by reducing mod 256 on write. -/
structure Buffer where
  bytes : List Nat
  position : Nat
  order : ByteOrder
deriving DecidableEq

/-- RFC4271 error codes (src/bgp/error.rs, enum ErrorCode). -/
inductive ErrorCode where
  | MessageHeader
  | OpenMessage
  | UpdateMessage
  | HoldTimerExpired
  | FiniteStateMachine
  | Cease
  | Unknown (value : Nat)
deriving DecidableEq

/-- impl From of u8 for ErrorCode. -/
def ErrorCode.fromU8 (value : Nat) : ErrorCode :=
  if value = 1 then .MessageHeader
  else if value = 2 then .OpenMessage
  else if value = 3 then .UpdateMessage
  else if value = 4 then .HoldTimerExpired
  else if value = 5 then .FiniteStateMachine
  else if value = 6 then .Cease
  else .Unknown value

/-- impl From of ErrorCode for u8. -/
def ErrorCode.toU8 : ErrorCode → Nat
  | .MessageHeader => 1
  | .OpenMessage => 2
  | .UpdateMessage => 3
  | .HoldTimerExpired => 4
  | .FiniteStateMachine => 5
  | .Cease => 6
  | .Unknown value => value

/-- Header error sub-codes (src/bgp/error.rs, enum HeaderError). -/
inductive HeaderError where
  | ConnectionNotSynchronized
  | BadMessageLength
  | BadMessageType
deriving DecidableEq

/-- impl From of HeaderError for u8 (the repr discriminants). -/
def HeaderError.toU8 : HeaderError → Nat
  | .ConnectionNotSynchronized => 1
  | .BadMessageLength => 2
  | .BadMessageType => 3

/-- Open-message error sub-codes (src/bgp/error.rs, enum OpenMessageError). -/
inductive OpenMessageError where
  | UnsupportedVersionNumber
  | BadPeerAS
  | BadBGPIdentifier
  | UnsupportedOptionalParameter
  | UnacceptableHoldTime
deriving DecidableEq

/-- impl From of OpenMessageError for u8 (the repr discriminants). -/
def OpenMessageError.toU8 : OpenMessageError → Nat
  | .UnsupportedVersionNumber => 1
  | .BadPeerAS => 2
  | .BadBGPIdentifier => 3
  | .UnsupportedOptionalParameter => 4
  | .UnacceptableHoldTime => 6

/-- Structured protocol error pair (src/bgp/error.rs, struct BGPError). -/
structure BGPError where
  errorCode : ErrorCode
  subCode : Nat
deriving DecidableEq

/-- BGPError::header_error. -/
def BGPError.headerError (sub : HeaderError) : BGPError := ⟨.MessageHeader, sub.toU8⟩

/-- BGPError::open. -/
def BGPError.openError (sub : OpenMessageError) : BGPError := ⟨.OpenMessage, sub.toU8⟩

/-- Error kinds (src/error.rs, enum ErrorType); message strings are not modelled. -/
inductive ErrType where
  | ReadError
  | WriteError
  | OtherError
  | BGPError (error : ZephyrRoute.BGPError)
deriving DecidableEq

/-- Abnormal termination of the Rust code: a panicking unwrap, an unchecked transmute of a
byte that is no declared discriminant (undefined behavior), or fuel exhaustion of a modelled
while-loop (never reached: every loop body consumes at least one byte per iteration). -/
inductive CrashKind where
  | UnwrapFailed
  | InvalidTransmute
  | OutOfFuel
deriving DecidableEq

/-- Outcome of a decode step: value plus advanced buffer, error, or crash. -/
inductive Res (α : Type) where
  | ok (value : α) (buffer : Buffer)
  | fail (error : ErrType)
  | crash (kind : CrashKind)
deriving DecidableEq

/-- Sequencing of decode steps; errors and crashes propagate (the question-mark operator). -/
def Res.bind {α β : Type} : Res α → (α → Buffer → Res β) → Res β
  | .ok a buf, f => f a buf
  | .fail e, _ => .fail e
  | .crash k, _ => .crash k

/-- Replace the buffer carried by a success: used where the Rust code shadows the parent
cursor with a sub-cursor and, on return, the caller continues with the parent. -/
def Res.withBuffer {α : Type} (buf : Buffer) : Res α → Res α
  | .ok a _ => .ok a buf
  | .fail e => .fail e
  | .crash k => .crash k

/-- Buffer::len. -/
def Buffer.len (b : Buffer) : Nat := b.bytes.length

/-- Buffer::remaining. -/
def Buffer.remaining (b : Buffer) : Nat := b.bytes.length - b.position

/-- Buffer::is_empty. -/
def Buffer.isEmpty (b : Buffer) : Bool := b.remaining == 0

/-- Buffer::empty. -/
def Buffer.empty (order : ByteOrder) : Buffer := ⟨[], 0, order⟩

/-- Buffer::from_vec. -/
def Buffer.fromVec (bytes : List Nat) (order : ByteOrder) : Buffer := ⟨bytes, 0, order⟩

/-- impl WriteRead for u8, fn write: insert the byte at the position, advance by one. -/
def u8write (value : Nat) (b : Buffer) : Buffer :=
  { b with bytes := b.bytes.insertIdx b.position (value % 256), position := b.position + 1 }

/-- impl WriteRead for u8, fn read. -/
def u8read (b : Buffer) : Res Nat :=
  if b.isEmpty then .fail .ReadError
  else .ok (b.bytes.getD b.position 0) { b with position := b.position + 1 }

/-- Loop shared by Buffer::read_bytes_array and Buffer::read_bytes_vector after the bounds
check: n unchecked u8 reads. -/
def readU8s : Nat → Buffer → Res (List Nat)
  | 0, b => .ok [] b
  | n + 1, b => (u8read b).bind fun x b1 => (readU8s n b1).bind fun xs b2 => .ok (x :: xs) b2

/-- Buffer::read_bytes_vector (and read_bytes_array): availability check before any read. -/
def Buffer.readBytesVector (b : Buffer) (length : Nat) : Res (List Nat) :=
  if b.remaining < length then .fail .ReadError else readU8s length b

/-- Buffer::write_bytes_vector (and write_bytes_array / write_bytes_slice). -/
def writeBytes (data : List Nat) (b : Buffer) : Buffer :=
  data.foldl (fun acc x => u8write x acc) b

/-- Buffer::write_buffer: append this buffer's bytes to the destination. -/
def Buffer.writeBuffer (src : Buffer) (dst : Buffer) : Buffer := writeBytes src.bytes dst

/-- Buffer::read_buffer: consume length bytes and return an independent cursor over a copy
of them, position zero, same byte order. -/
def Buffer.readBuffer (b : Buffer) (length : Nat) : Res Buffer :=
  (b.readBytesVector length).bind fun data b1 => .ok ⟨data, 0, b.order⟩ b1

/-- Big-endian byte decomposition at the given width (to_be_bytes). -/
def beBytes : Nat → Nat → List Nat
  | 0, _ => []
  | n + 1, v => beBytes n (v / 256) ++ [v % 256]

/-- from_be_bytes: assemble bytes most significant first. -/
def beToNat (l : List Nat) : Nat := l.foldl (fun acc x => acc * 256 + x) 0

/-- The write half of the write_read_number! macro instances (u16/u32/u64): write the
big- or little-endian bytes of the value per the buffer's order. -/
def numWrite (width value : Nat) (b : Buffer) : Buffer :=
  writeBytes (if b.order = .BigEndian then beBytes width value else (beBytes width value).reverse) b

/-- The read half of the write_read_number! macro instances: read width bytes and assemble
them per the buffer's order. -/
def numRead (width : Nat) (b : Buffer) : Res Nat :=
  (b.readBytesVector width).bind fun data b1 =>
    .ok (if b.order = .BigEndian then beToNat data else beToNat data.reverse) b1

/-- Fueled image of the source's while remaining-positive loops; every loop body below
consumes at least one byte on success, so fuel equal to the remaining byte count suffices
and the OutOfFuel outcome is unreachable. -/
def readWhileRemaining {α : Type} (f : Buffer → Res α) : Nat → Buffer → Res (List α)
  | 0, b => if b.remaining > 0 then .crash .OutOfFuel else .ok [] b
  | fuel + 1, b =>
    if b.remaining > 0 then
      (f b).bind fun x b1 => (readWhileRemaining f fuel b1).bind fun xs b2 => .ok (x :: xs) b2
    else .ok [] b

/-- Counted for-loop reading exactly n items. -/
def readN {α : Type} (f : Buffer → Res α) : Nat → Buffer → Res (List α)
  | 0, b => .ok [] b
  | n + 1, b => (f b).bind fun x b1 => (readN f n b1).bind fun xs b2 => .ok (x :: xs) b2

/-- Sequential write of a list of items with a fallible writer (the for-loops on the
write paths). -/
def writeList {α : Type} (f : α → Buffer → Except ErrType Buffer) :
    List α → Buffer → Except ErrType Buffer
  | [], b => .ok b
  | x :: xs, b => (f x b).bind (writeList f xs)

/-- Address family indicator (src/bgp/opt_params.rs, enum AFI). -/
inductive AFI where
  | IPv4
  | IPv6
  | Unexpected (value : Nat)
deriving DecidableEq

/-- impl From of u16 for AFI. -/
def AFI.fromU16 (value : Nat) : AFI :=
  if value = 1 then .IPv4 else if value = 2 then .IPv6 else .Unexpected value

/-- impl Into of Result of u16 for AFI. -/
def AFI.intoU16 : AFI → Except Nat Nat
  | .IPv4 => .ok 1
  | .IPv6 => .ok 2
  | .Unexpected value => .error value

/-- Subsequent address family indicator (src/bgp/opt_params.rs, enum SAFI). -/
inductive SAFI where
  | Unicast
  | Multicast
  | LabeledUnicast
  | NG_MVPN
  | MDT
  | VPN
  | VPNMulticast
  | RouteTargetConstrain
  | FlowSpec
  | Unexpected (value : Nat)
deriving DecidableEq

/-- impl From of u8 for SAFI. -/
def SAFI.fromU8 (value : Nat) : SAFI :=
  if value = 1 then .Unicast
  else if value = 2 then .Multicast
  else if value = 4 then .LabeledUnicast
  else if value = 5 then .NG_MVPN
  else if value = 66 then .MDT
  else if value = 128 then .VPN
  else if value = 129 then .VPNMulticast
  else if value = 132 then .RouteTargetConstrain
  else if value = 133 then .FlowSpec
  else .Unexpected value

/-- impl Into of Result of u8 for SAFI. -/
def SAFI.intoU8 : SAFI → Except Nat Nat
  | .Unicast => .ok 1
  | .Multicast => .ok 2
  | .LabeledUnicast => .ok 4
  | .NG_MVPN => .ok 5
  | .MDT => .ok 66
  | .VPN => .ok 128
  | .VPNMulticast => .ok 129
  | .RouteTargetConstrain => .ok 132
  | .FlowSpec => .ok 133
  | .Unexpected value => .error value

/-- Open-message capability (src/bgp/opt_params.rs, enum Capability). -/
inductive Capability where
  | RouteRefresh
  | FourOctetASNumberSupport (autonomousSystem : Nat)
  | EnhancedRouteRefresh
  | LongLivedGracefulRestart
  | MultiProtocolExtensions (afi : AFI) (safi : SAFI)
  | Unknown (id : Nat) (value : List Nat)
deriving DecidableEq

/-- Capability::id. -/
def Capability.id : Capability → Option Nat
  | .MultiProtocolExtensions _ _ => some 1
  | .RouteRefresh => some 2
  | .FourOctetASNumberSupport _ => some 65
  | .EnhancedRouteRefresh => some 70
  | .LongLivedGracefulRestart => some 71
  | .Unknown _ _ => none

/-- Capability::write: the id byte (an Unknown capability is rejected instead), then the
value serialized into a scratch buffer, its length as one byte, then the value bytes. -/
def Capability.write (c : Capability) (b : Buffer) : Except ErrType Buffer := do
  let b ← (match c.id with
    | some v => Except.ok (u8write v b)
    | none =>
      match c with
      | .Unknown _ _ => Except.error (.BGPError (BGPError.openError .UnsupportedOptionalParameter))
      | _ => Except.ok b)
  let temp := Buffer.empty .BigEndian
  let temp ← (match c with
    | .RouteRefresh => Except.ok temp
    | .FourOctetASNumberSupport autonomousSystem => Except.ok (numWrite 8 autonomousSystem temp)
    | .EnhancedRouteRefresh => Except.ok temp
    | .LongLivedGracefulRestart => Except.ok temp
    | .MultiProtocolExtensions afi safi =>
      match afi.intoU16 with
      | .error _ => Except.error .ReadError
      | .ok av =>
        let temp := numWrite 2 av temp
        let temp := u8write 0 temp
        match safi.intoU8 with
        | .error _ => Except.error .ReadError
        | .ok sv => Except.ok (u8write sv temp)
    | .Unknown _ _ => Except.ok temp)
  let b := u8write (temp.len % 256) b
  Except.ok (temp.writeBuffer b)

/-- Capability::read: id byte, length byte, bounded sub-cursor over the value, then
dispatch on the id; ids outside the registry produce Unknown with the raw value bytes. -/
def Capability.read (b : Buffer) : Res Capability :=
  (u8read b).bind fun id b =>
  (u8read b).bind fun length b =>
  (b.readBuffer length).bind fun inner b =>
  if id = 1 then
    (numRead 2 inner).bind fun afi inner =>
    (u8read inner).bind fun _ inner =>
    (u8read inner).bind fun safi _ =>
    .ok (.MultiProtocolExtensions (AFI.fromU16 afi) (SAFI.fromU8 safi)) b
  else if id = 2 then .ok .RouteRefresh b
  else if id = 65 then
    (numRead 8 inner).bind fun asn _ => .ok (.FourOctetASNumberSupport asn) b
  else if id = 70 then .ok .EnhancedRouteRefresh b
  else if id = 71 then .ok .LongLivedGracefulRestart b
  else .ok (.Unknown id inner.bytes) b

/-- Optional parameter of the Open message (src/bgp/opt_params.rs, enum OptionalParameter). -/
inductive OptionalParameter where
  | Capabilities (capabilities : List Capability)
deriving DecidableEq

/-- OptionalParameter::id. -/
def OptionalParameter.id : OptionalParameter → Nat
  | .Capabilities _ => 2

/-- OptionalParameter::write: id byte, the capabilities serialized into a scratch buffer,
its length as one byte, then the capability bytes. -/
def OptionalParameter.write (p : OptionalParameter) (b : Buffer) : Except ErrType Buffer := do
  let b := u8write p.id b
  let temp := Buffer.empty .BigEndian
  let temp ← (match p with
    | .Capabilities capabilities => writeList Capability.write capabilities temp)
  let b := u8write (temp.len % 256) b
  Except.ok (temp.writeBuffer b)

/-- OptionalParameter::read: id byte, length byte, bounded sub-cursor, then capabilities
until the sub-cursor is exhausted; only id 2 is implemented. -/
def OptionalParameter.read (b : Buffer) : Res OptionalParameter :=
  (u8read b).bind fun id b =>
  (u8read b).bind fun length b =>
  (b.readBuffer length).bind fun inner b =>
  if id = 2 then
    (readWhileRemaining Capability.read inner.remaining inner).bind fun capabilities _ =>
    .ok (.Capabilities capabilities) b
  else .fail .ReadError

/-- Origin of a route (src/bgp/path_attr.rs, enum Origin). -/
inductive Origin where
  | IGP
  | EGP
  | Incomplete
deriving DecidableEq

/-- Origin as u8 (the repr discriminants). -/
def Origin.toU8 : Origin → Nat
  | .IGP => 0
  | .EGP => 1
  | .Incomplete => 2

/-- Origin::from: range check 0..=2, then transmute (the check makes the transmute sound). -/
def Origin.fromU8 (value : Nat) : Except ErrType Origin :=
  if 2 < value then .error .OtherError
  else .ok (if value = 0 then .IGP else if value = 1 then .EGP else .Incomplete)

/-- Attribute flag bits (src/bgp/path_attr.rs, bitflags AttributeFlags: OPTIONAL 0x80,
TRANSITIVE 0x40, PARTIAL 0x20, EXTENDED_LENGTH 0x10). -/
structure AttributeFlags where
  bits : Nat
deriving DecidableEq

/-- AttributeFlags::from_bits: some exactly when no undefined bit (the low nibble of the
byte) is set, none otherwise. -/
def AttributeFlags.fromBits (value : Nat) : Option AttributeFlags :=
  if value % 16 = 0 then some ⟨value⟩ else none

/-- Path attribute types (src/bgp/path_attr.rs, enum AttributeType) with their repr
discriminants. -/
inductive AttributeType where
  | Reserved
  | Origin
  | ASPath
  | NextHop
  | MultiExitDisc
  | LocalPref
  | AtomicAggregate
  | Aggregator
  | Community
  | OriginatorId
  | ClusterList
  | MPReachableNLRI
  | MPUnreachableNLRI
  | ExtendedCommunities
  | AS4Path
  | AS4Aggregator
  | PMSITunnel
  | TunnelEncapsulation
  | TrafficEngineering
  | Ipv6AddressSpecifiedExtendedCommunity
  | AIGP
  | PEDistinguisherLabels
  | BGPLSAttribute
  | LargeCommunity
  | BGPSecPath
  | OnlyToCustomer
  | BGPDomainPath
  | SFPAttribute
  | BFDDiscriminator
  | BGPRouterCapabilities
  | BGPPrefixSID
  | AttributeSet
  | ReservedForDevelopment
deriving DecidableEq

/-- The repr(u8) discriminant of each declared AttributeType variant. -/
def AttributeType.discriminant : AttributeType → Nat
  | .Reserved => 0
  | .Origin => 1
  | .ASPath => 2
  | .NextHop => 3
  | .MultiExitDisc => 4
  | .LocalPref => 5
  | .AtomicAggregate => 6
  | .Aggregator => 7
  | .Community => 8
  | .OriginatorId => 9
  | .ClusterList => 10
  | .MPReachableNLRI => 14
  | .MPUnreachableNLRI => 15
  | .ExtendedCommunities => 16
  | .AS4Path => 17
  | .AS4Aggregator => 18
  | .PMSITunnel => 22
  | .TunnelEncapsulation => 23
  | .TrafficEngineering => 24
  | .Ipv6AddressSpecifiedExtendedCommunity => 25
  | .AIGP => 26
  | .PEDistinguisherLabels => 27
  | .BGPLSAttribute => 29
  | .LargeCommunity => 32
  | .BGPSecPath => 33
  | .OnlyToCustomer => 35
  | .BGPDomainPath => 36
  | .SFPAttribute => 37
  | .BFDDiscriminator => 38
  | .BGPRouterCapabilities => 39
  | .BGPPrefixSID => 40
  | .AttributeSet => 128
  | .ReservedForDevelopment => 255

/-- AttributeType::from in the source is an UNCHECKED mem::transmute of the raw byte.
This table is its defined portion: some variant when the byte is a declared discriminant;
none models the undefined behavior of transmuting any other byte (the caller below maps
none to a crash). -/
def AttributeType.fromRaw (value : Nat) : Option AttributeType :=
  if value = 0 then some .Reserved
  else if value = 1 then some .Origin
  else if value = 2 then some .ASPath
  else if value = 3 then some .NextHop
  else if value = 4 then some .MultiExitDisc
  else if value = 5 then some .LocalPref
  else if value = 6 then some .AtomicAggregate
  else if value = 7 then some .Aggregator
  else if value = 8 then some .Community
  else if value = 9 then some .OriginatorId
  else if value = 10 then some .ClusterList
  else if value = 14 then some .MPReachableNLRI
  else if value = 15 then some .MPUnreachableNLRI
  else if value = 16 then some .ExtendedCommunities
  else if value = 17 then some .AS4Path
  else if value = 18 then some .AS4Aggregator
  else if value = 22 then some .PMSITunnel
  else if value = 23 then some .TunnelEncapsulation
  else if value = 24 then some .TrafficEngineering
  else if value = 25 then some .Ipv6AddressSpecifiedExtendedCommunity
  else if value = 26 then some .AIGP
  else if value = 27 then some .PEDistinguisherLabels
  else if value = 29 then some .BGPLSAttribute
  else if value = 32 then some .LargeCommunity
  else if value = 33 then some .BGPSecPath
  else if value = 35 then some .OnlyToCustomer
  else if value = 36 then some .BGPDomainPath
  else if value = 37 then some .SFPAttribute
  else if value = 38 then some .BFDDiscriminator
  else if value = 39 then some .BGPRouterCapabilities
  else if value = 40 then some .BGPPrefixSID
  else if value = 128 then some .AttributeSet
  else if value = 255 then some .ReservedForDevelopment
  else none

/-- Community record (src/bgp/path_attr.rs, struct Community). -/
structure Community where
  communityAs : Nat
  communityValue : Nat
deriving DecidableEq

/-- Community::write: as u32, value u16. -/
def Community.write (c : Community) (b : Buffer) : Buffer :=
  numWrite 2 c.communityValue (numWrite 4 c.communityAs b)

/-- Community::read. -/
def Community.read (b : Buffer) : Res Community :=
  (numRead 4 b).bind fun communityAs b =>
  (numRead 2 b).bind fun communityValue b =>
  .ok ⟨communityAs, communityValue⟩ b

/-- Large community record (src/bgp/path_attr.rs, struct LargeCommunity). -/
structure LargeCommunity where
  globalAdministrator : Nat
  localDataPart1 : Nat
  localDataPart2 : Nat
deriving DecidableEq

/-- LargeCommunity::write: three u64 fields. -/
def LargeCommunity.write (c : LargeCommunity) (b : Buffer) : Buffer :=
  numWrite 8 c.localDataPart2 (numWrite 8 c.localDataPart1 (numWrite 8 c.globalAdministrator b))

/-- LargeCommunity::read. -/
def LargeCommunity.read (b : Buffer) : Res LargeCommunity :=
  (numRead 8 b).bind fun globalAdministrator b =>
  (numRead 8 b).bind fun localDataPart1 b =>
  (numRead 8 b).bind fun localDataPart2 b =>
  .ok ⟨globalAdministrator, localDataPart1, localDataPart2⟩ b

/-- AS-path segment (src/bgp/path_attr.rs, enum ASPathSegment). -/
inductive ASPathSegment where
  | ASSequence (values : List Nat)
  | Unknown (ty : Nat)
deriving DecidableEq

/-- impl From of ASPathSegment reference for u8. -/
def ASPathSegment.toU8 : ASPathSegment → Nat
  | .ASSequence _ => 2
  | .Unknown value => value

/-- ASPathSegment::write: segment type byte, then for ASSequence the count byte and the
4-byte AS numbers; writing an Unknown segment fails after the type byte. -/
def ASPathSegment.write (s : ASPathSegment) (b : Buffer) : Except ErrType Buffer :=
  let b := u8write s.toU8 b
  match s with
  | .ASSequence values =>
    .ok ((values.foldl (fun acc v => numWrite 4 v acc) (u8write (values.length % 256) b)))
  | .Unknown _ => .error .WriteError

/-- ASPathSegment::read: type byte 2 is ASSequence (count byte then count u32 values),
any other type byte decodes to Unknown. -/
def ASPathSegment.read (b : Buffer) : Res ASPathSegment :=
  (u8read b).bind fun id b =>
  if id = 2 then
    (u8read b).bind fun length b =>
    (readN (numRead 4) length b).bind fun values b =>
    .ok (.ASSequence values) b
  else .ok (.Unknown id) b

/-- Attribute value (src/bgp/path_attr.rs, enum AttributeValue). -/
inductive AttributeValue where
  | Origin (origin : ZephyrRoute.Origin)
  | ASPath (path : ASPathSegment)
  | NextHop (nextHop : List Nat)
  | Communities (communities : List Community)
  | LargeCommunities (communities : List LargeCommunity)
  | MPReachableNLRI (afi : AFI) (safi : SAFI) (nextHop : List Nat) (nlri : List Nat)
  | MPUnreachableNLRI (afi : AFI) (safi : SAFI) (withdrawnRoutes : List Nat)
deriving DecidableEq

/-- Path attribute (src/bgp/path_attr.rs, struct Attribute). -/
structure Attribute where
  ty : AttributeType
  flags : AttributeFlags
  value : AttributeValue
deriving DecidableEq

/-- Attribute::write: flag bits byte, type discriminant byte, then the value serialized
into a scratch buffer, its length as one byte, then the value bytes. -/
def Attribute.write (a : Attribute) (b : Buffer) : Except ErrType Buffer := do
  let b := u8write a.flags.bits b
  let b := u8write a.ty.discriminant b
  let temp := Buffer.empty .BigEndian
  let temp ← (match a.value with
    | .Origin origin => Except.ok (u8write origin.toU8 temp)
    | .ASPath path => ASPathSegment.write path temp
    | .NextHop nextHop => Except.ok (writeBytes nextHop temp)
    | .Communities communities =>
      Except.ok (communities.foldl (fun acc c => Community.write c acc) temp)
    | .LargeCommunities communities =>
      Except.ok (communities.foldl (fun acc c => LargeCommunity.write c acc) temp)
    | .MPReachableNLRI afi safi nextHop nlri =>
      match afi.intoU16 with
      | .error _ => Except.error .ReadError
      | .ok av =>
        let temp := numWrite 2 av temp
        match safi.intoU8 with
        | .error _ => Except.error .ReadError
        | .ok sv =>
          let temp := u8write sv temp
          let temp := u8write (nextHop.length % 256) temp
          let temp := writeBytes nextHop temp
          let temp := u8write 0 temp
          Except.ok (writeBytes nlri temp)
    | .MPUnreachableNLRI afi safi withdrawnRoutes =>
      match afi.intoU16 with
      | .error _ => Except.error .ReadError
      | .ok av =>
        let temp := numWrite 2 av temp
        match safi.intoU8 with
        | .error _ => Except.error .ReadError
        | .ok sv => Except.ok (writeBytes withdrawnRoutes (u8write sv temp)))
  let b := u8write (temp.len % 256) b
  Except.ok (temp.writeBuffer b)

/-- Attribute::read: flags byte through AttributeFlags::from_bits followed by unwrap (a
crash on any low-nibble bit), type byte through the unchecked transmute (a crash on any
undeclared discriminant), length byte, bounded sub-cursor over the value, then dispatch
on the type. The two multiprotocol arms read their fields from the PARENT cursor, not
from the sub-cursor. Unimplemented declared types fail with a read error. -/
def Attribute.read (b : Buffer) : Res Attribute :=
  (u8read b).bind fun flagsByte b =>
  match AttributeFlags.fromBits flagsByte with
  | none => .crash .UnwrapFailed
  | some flags =>
  (u8read b).bind fun tyByte b =>
  match AttributeType.fromRaw tyByte with
  | none => .crash .InvalidTransmute
  | some ty =>
  (u8read b).bind fun length b =>
  (b.readBuffer length).bind fun temp b =>
  match ty with
  | .Origin =>
    (u8read temp).bind fun ob _ =>
    (match Origin.fromU8 ob with
     | .error e => .fail e
     | .ok origin => .ok ⟨ty, flags, .Origin origin⟩ b)
  | .ASPath =>
    (ASPathSegment.read temp).bind fun path _ => .ok ⟨ty, flags, .ASPath path⟩ b
  | .NextHop =>
    (temp.readBytesVector temp.len).bind fun nextHop _ => .ok ⟨ty, flags, .NextHop nextHop⟩ b
  | .Community =>
    (readWhileRemaining Community.read temp.remaining temp).bind fun communities _ =>
    .ok ⟨ty, flags, .Communities communities⟩ b
  | .LargeCommunity =>
    (readWhileRemaining LargeCommunity.read temp.remaining temp).bind fun communities _ =>
    .ok ⟨ty, flags, .LargeCommunities communities⟩ b
  | .MPReachableNLRI =>
    (numRead 2 b).bind fun afi b =>
    (u8read b).bind fun safi b =>
    (u8read b).bind fun nextHopLength b =>
    (b.readBuffer nextHopLength).bind fun nextHopBuffer b =>
    (u8read b).bind fun _ b =>
    .ok ⟨ty, flags, .MPReachableNLRI (AFI.fromU16 afi) (SAFI.fromU8 safi)
          nextHopBuffer.bytes temp.bytes⟩ b
  | .MPUnreachableNLRI =>
    (numRead 2 b).bind fun afi b =>
    (u8read b).bind fun safi b =>
    .ok ⟨ty, flags, .MPUnreachableNLRI (AFI.fromU16 afi) (SAFI.fromU8 safi) temp.bytes⟩ b
  | _ => .fail .ReadError

/-- Packet types (src/bgp/mod.rs, enum PacketType). -/
inductive PacketType where
  | Open
  | Update
  | Notification
  | KeepAlive
  | RouteRefresh
  | Unexpected
deriving DecidableEq

/-- PacketType as u8 (the repr discriminants). -/
def PacketType.toU8 : PacketType → Nat
  | .Open => 1
  | .Update => 2
  | .Notification => 3
  | .KeepAlive => 4
  | .RouteRefresh => 5
  | .Unexpected => 255

/-- impl From of u8 for PacketType: range check 1..=5, then transmute (sound because all
five discriminants are declared with the route-refresh feature enabled). -/
def PacketType.fromU8 (value : Nat) : PacketType :=
  if value < 1 ∨ 5 < value then .Unexpected
  else if value = 1 then .Open
  else if value = 2 then .Update
  else if value = 3 then .Notification
  else if value = 4 then .KeepAlive
  else .RouteRefresh

/-- Fixed 19-byte message header (src/bgp/mod.rs, struct BGPHeader); the marker is the
16-byte array field. -/
structure BGPHeader where
  marker : List Nat
  length : Nat
  ty : PacketType
deriving DecidableEq

/-- BGPHeader::by_type. -/
def BGPHeader.byType (ty : PacketType) (length : Nat) : BGPHeader :=
  ⟨List.replicate 16 255, length, ty⟩

/-- BGPHeader::write: marker bytes, length u16, type byte. -/
def BGPHeader.write (h : BGPHeader) (b : Buffer) : Buffer :=
  u8write h.ty.toU8 (numWrite 2 h.length (writeBytes h.marker b))

/-- The RFC4271 section 6.1 validation tail of BGPHeader::read, in source order; factored
out of the read function for the proofs below. The availability check compares the
declared length against the TOTAL byte count of the buffer (Buffer::len), not against the
unread remainder. -/
def BGPHeader.validate (header : BGPHeader) (b : Buffer) : Res BGPHeader :=
  if header.length < 19 ∨ 4096 < header.length then
    .fail (.BGPError (BGPError.headerError .BadMessageLength))
  else if header.ty = .KeepAlive ∧ header.length ≠ 19 then
    .fail (.BGPError (BGPError.headerError .BadMessageLength))
  else if header.ty = .Open ∧ header.length < 29 then
    .fail (.BGPError (BGPError.headerError .BadMessageLength))
  else if header.ty = .Update ∧ header.length < 23 then
    .fail (.BGPError (BGPError.headerError .BadMessageLength))
  else if header.ty = .Notification ∧ header.length < 21 then
    .fail (.BGPError (BGPError.headerError .BadMessageLength))
  else if b.len < header.length then
    .fail (.BGPError (BGPError.headerError .BadMessageLength))
  else if header.ty = .Unexpected then
    .fail (.BGPError (BGPError.headerError .BadMessageType))
  else if header.marker ≠ List.replicate 16 255 then
    .fail (.BGPError (BGPError.headerError .ConnectionNotSynchronized))
  else .ok header b

/-- BGPHeader::read: the three fields, then the section 6.1 validation. -/
def BGPHeader.read (b : Buffer) : Res BGPHeader :=
  (b.readBytesVector 16).bind fun marker b =>
  (numRead 2 b).bind fun length b =>
  (u8read b).bind fun tyByte b =>
  BGPHeader.validate ⟨marker, length, PacketType.fromU8 tyByte⟩ b

/-- Route prefix (src/bgp/mod.rs, enum RoutePrefix). -/
inductive RoutePrefix where
  | IPv4 (prefixLength : Nat) (prefixBytes : List Nat)
deriving DecidableEq

/-- impl WriteRead for RoutePrefix, fn write: length-in-bits byte, then the significant
bytes verbatim. -/
def RoutePrefix.write (r : RoutePrefix) (b : Buffer) : Buffer :=
  match r with
  | .IPv4 prefixLength prefixBytes => writeBytes prefixBytes (u8write prefixLength b)

/-- impl WriteRead for RoutePrefix, fn read: length byte, then ceil(length/8) bytes. -/
def RoutePrefix.read (b : Buffer) : Res RoutePrefix :=
  (u8read b).bind fun prefixLength b =>
  (b.readBytesVector ((prefixLength + 7) / 8)).bind fun prefixBytes b =>
  .ok (.IPv4 prefixLength prefixBytes) b

/-- Message variants (src/bgp/mod.rs, enum Packet); Open fields are version, autonomous
system, hold time, identifier, optional parameters; Update fields are withdrawn routes,
NLRI, attributes. -/
inductive Packet where
  | Open (version : Nat) (autonomousSystem : Nat) (holdTime : Nat) (bgpIdent : Nat)
      (optParams : List OptionalParameter)
  | Update (withdrawnRoutes : List RoutePrefix) (nlri : List RoutePrefix)
      (attributes : List Attribute)
  | Notification (errorCode : ErrorCode) (subCode : Nat) (data : List Nat)
  | KeepAlive
  | RouteRefresh
deriving DecidableEq

/-- impl From of Packet reference for PacketType. -/
def PacketType.fromPacket : Packet → PacketType
  | .Open _ _ _ _ _ => .Open
  | .Update _ _ _ => .Update
  | .Notification _ _ _ => .Notification
  | .KeepAlive => .KeepAlive
  | .RouteRefresh => .RouteRefresh

/-- Packet::write: serialize the body into a scratch buffer, then write the header with
length equal to the body length as u16 plus 19, then append the body. -/
def Packet.write (p : Packet) (buffer : Buffer) : Except ErrType Buffer := do
  let temp := Buffer.empty .BigEndian
  let temp ← (match p with
    | .Open version autonomousSystem holdTime bgpIdent optParams => do
      let temp := u8write version temp
      let temp := numWrite 2 autonomousSystem temp
      let temp := numWrite 2 holdTime temp
      let temp := numWrite 4 bgpIdent temp
      let tempParams ← writeList OptionalParameter.write optParams (Buffer.empty .BigEndian)
      let temp := u8write (tempParams.len % 256) temp
      Except.ok (tempParams.writeBuffer temp)
    | .Update withdrawnRoutes nlri attributes => do
      let withdrawnBuffer :=
        withdrawnRoutes.foldl (fun acc r => RoutePrefix.write r acc) (Buffer.empty .BigEndian)
      let temp := numWrite 2 withdrawnBuffer.len temp
      let temp := withdrawnBuffer.writeBuffer temp
      let attributesBuffer ← writeList Attribute.write attributes (Buffer.empty .BigEndian)
      let temp := numWrite 2 attributesBuffer.len temp
      let temp := attributesBuffer.writeBuffer temp
      let nlriBuffer := nlri.foldl (fun acc r => RoutePrefix.write r acc) (Buffer.empty .BigEndian)
      let temp := numWrite 2 nlriBuffer.len temp
      Except.ok (nlriBuffer.writeBuffer temp)
    | .KeepAlive => Except.ok temp
    | .Notification errorCode subCode data =>
      Except.ok (writeBytes data (u8write subCode (u8write errorCode.toU8 temp)))
    | .RouteRefresh => Except.ok temp)
  let header := BGPHeader.byType (PacketType.fromPacket p) (temp.len % 65536 + 19)
  let buffer := header.write buffer
  Except.ok (temp.writeBuffer buffer)

/-- Packet::read: header (validated), then a bounded sub-cursor of length minus 19 body
bytes that shadows the parent cursor for all body parsing; the parent is what the caller
continues with. -/
def Packet.read (buffer : Buffer) : Res Packet :=
  (BGPHeader.read buffer).bind fun header buffer =>
  (buffer.readBuffer (header.length - 19)).bind fun inner outer =>
  match header.ty with
  | .Open =>
    Res.withBuffer outer (
      (u8read inner).bind fun version inner =>
      (numRead 2 inner).bind fun autonomousSystem inner =>
      (numRead 2 inner).bind fun holdTime inner =>
      (numRead 4 inner).bind fun bgpIdent inner =>
      (u8read inner).bind fun _ inner =>
      (readWhileRemaining OptionalParameter.read inner.remaining inner).bind fun optParams inner =>
      if holdTime ≠ 0 ∧ holdTime < 3 then
        .fail (.BGPError (BGPError.openError .UnacceptableHoldTime))
      else .ok (.Open version autonomousSystem holdTime bgpIdent optParams) inner)
  | .Update =>
    Res.withBuffer outer (
      (numRead 2 inner).bind fun length inner =>
      (inner.readBuffer length).bind fun withdrawnBuffer inner =>
      (readWhileRemaining RoutePrefix.read withdrawnBuffer.remaining withdrawnBuffer).bind
        fun withdrawnRoutes _ =>
      (numRead 2 inner).bind fun length inner =>
      (inner.readBuffer length).bind fun attributesBuffer inner =>
      (readWhileRemaining Attribute.read attributesBuffer.remaining attributesBuffer).bind
        fun attributes _ =>
      (numRead 2 inner).bind fun length inner =>
      (inner.readBuffer length).bind fun nlriBuffer inner =>
      (readWhileRemaining RoutePrefix.read nlriBuffer.remaining nlriBuffer).bind fun nlri _ =>
      .ok (.Update withdrawnRoutes nlri attributes) inner)
  | .Notification =>
    Res.withBuffer outer (
      (u8read inner).bind fun errorCode inner =>
      (u8read inner).bind fun subCode inner =>
      (inner.readBuffer (header.length - 21)).bind fun dataBuffer inner =>
      .ok (.Notification (ErrorCode.fromU8 errorCode) subCode dataBuffer.bytes) inner)
  | .KeepAlive => .ok .KeepAlive outer
  | .RouteRefresh => .ok .RouteRefresh outer
  | .Unexpected => .fail .ReadError

/-! Wire images: for each structure, the byte list its write function appends to a buffer
positioned at its end. These are proof-layer characterizations of the write functions
above; the lemmas of the next section establish the correspondence. -/

/-- Wire image of Capability::write for the encodable capabilities; for Unknown (whose
write fails) it is the nominal wire form that Capability::read recognizes. -/
def encCap : Capability → List Nat
  | .RouteRefresh => [2, 0]
  | .FourOctetASNumberSupport autonomousSystem => 65 :: 8 :: beBytes 8 autonomousSystem
  | .EnhancedRouteRefresh => [70, 0]
  | .LongLivedGracefulRestart => [71, 0]
  | .MultiProtocolExtensions afi safi =>
    1 :: 4 :: (beBytes 2 (match afi.intoU16 with | .ok v => v | .error v => v) ++
      [0, (match safi.intoU8 with | .ok v => v | .error v => v) % 256])
  | .Unknown id value => id % 256 :: value.length % 256 :: value

/-- Wire image of OptionalParameter::write. -/
def encOptParam : OptionalParameter → List Nat
  | .Capabilities capabilities =>
    2 :: (capabilities.flatMap encCap).length % 256 :: capabilities.flatMap encCap

/-- Wire image of Community::write. -/
def encCommunity (c : Community) : List Nat :=
  beBytes 4 c.communityAs ++ beBytes 2 c.communityValue

/-- Wire image of LargeCommunity::write. -/
def encLargeCommunity (c : LargeCommunity) : List Nat :=
  beBytes 8 c.globalAdministrator ++ beBytes 8 c.localDataPart1 ++ beBytes 8 c.localDataPart2

/-- Wire image of ASPathSegment::write for the ASSequence variant (Unknown cannot be
written). -/
def encASPathSegment : ASPathSegment → List Nat
  | .ASSequence values => 2 :: values.length % 256 :: values.flatMap (beBytes 4)
  | .Unknown _ => []

/-- Wire image of the attribute value scratch buffer in Attribute::write; the two
multiprotocol variants are excluded from the round-trip (their read arms are broken) and
given their nominal value image. -/
def encAttrValue : AttributeValue → List Nat
  | .Origin origin => [origin.toU8]
  | .ASPath path => encASPathSegment path
  | .NextHop nextHop => nextHop.map (· % 256)
  | .Communities communities => communities.flatMap encCommunity
  | .LargeCommunities communities => communities.flatMap encLargeCommunity
  | .MPReachableNLRI _ _ _ _ => []
  | .MPUnreachableNLRI _ _ _ => []

/-- Wire image of Attribute::write. -/
def encAttr (a : Attribute) : List Nat :=
  a.flags.bits % 256 :: a.ty.discriminant :: (encAttrValue a.value).length % 256 ::
    encAttrValue a.value

/-- Wire image of RoutePrefix::write. -/
def encPrefix : RoutePrefix → List Nat
  | .IPv4 prefixLength prefixBytes => prefixLength % 256 :: prefixBytes.map (· % 256)

/-- The attribute type that Attribute::read reconstructs for each value shape; a
well-formed attribute's declared type agrees with it. -/
def AttributeValue.attrType : AttributeValue → AttributeType
  | .Origin _ => .Origin
  | .ASPath _ => .ASPath
  | .NextHop _ => .NextHop
  | .Communities _ => .Community
  | .LargeCommunities _ => .LargeCommunity
  | .MPReachableNLRI _ _ _ _ => .MPReachableNLRI
  | .MPUnreachableNLRI _ _ _ => .MPUnreachableNLRI

/-- Wire image of the body scratch buffer in Packet::write. -/
def encBody : Packet → List Nat
  | .Open version autonomousSystem holdTime bgpIdent optParams =>
    version % 256 :: (beBytes 2 autonomousSystem ++ beBytes 2 holdTime ++
      beBytes 4 bgpIdent ++
      (optParams.flatMap encOptParam).length % 256 :: optParams.flatMap encOptParam)
  | .Update withdrawnRoutes nlri attributes =>
    beBytes 2 (withdrawnRoutes.flatMap encPrefix).length ++
      (withdrawnRoutes.flatMap encPrefix) ++
      beBytes 2 (attributes.flatMap encAttr).length ++ (attributes.flatMap encAttr) ++
      beBytes 2 (nlri.flatMap encPrefix).length ++ (nlri.flatMap encPrefix)
  | .Notification errorCode subCode data =>
    errorCode.toU8 % 256 :: subCode % 256 :: data.map (· % 256)
  | .KeepAlive => []
  | .RouteRefresh => []

/-- Wire image of Packet::write: all-ones marker, total length u16, type byte, body. -/
def encPacket (p : Packet) : List Nat :=
  List.replicate 16 255 ++ beBytes 2 ((encBody p).length % 65536 + 19) ++
    (PacketType.fromPacket p).toU8 :: encBody p

/-! Well-formedness: the class of values whose wire image round-trips. Each condition is
forced by a concrete behavior of the source: field-width bounds by the integer casts,
length bounds by the one- or two-byte length prefixes and the 4096-byte header bound,
the canonical-error-code condition by the ErrorCode conversions, the hold-time condition
by the decoder's hold-time check, the exclusion of Unknown capabilities and
multiprotocol attributes by their failing write and desynchronizing read arms. -/

/-- Well-formed capabilities: encodable, with in-range fields. -/
def Capability.wfb : Capability → Bool
  | .RouteRefresh => true
  | .FourOctetASNumberSupport autonomousSystem => autonomousSystem < 2 ^ 64
  | .EnhancedRouteRefresh => true
  | .LongLivedGracefulRestart => true
  | .MultiProtocolExtensions afi safi =>
    (match afi with | .Unexpected _ => false | _ => true) &&
    (match safi with | .Unexpected _ => false | _ => true)
  | .Unknown _ _ => false

/-- Well-formed optional parameters: well-formed capabilities fitting the one-byte
length prefix. -/
def OptionalParameter.wfb : OptionalParameter → Bool
  | .Capabilities capabilities =>
    capabilities.all Capability.wfb && (capabilities.flatMap encCap).length ≤ 255

/-- Well-formed communities: in-range fields. -/
def Community.wfb (c : Community) : Bool :=
  c.communityAs < 2 ^ 32 && c.communityValue < 2 ^ 16

/-- Well-formed large communities: in-range fields. -/
def LargeCommunity.wfb (c : LargeCommunity) : Bool :=
  c.globalAdministrator < 2 ^ 64 && c.localDataPart1 < 2 ^ 64 && c.localDataPart2 < 2 ^ 64

/-- Well-formed AS-path segments: an encodable ASSequence whose 2 + 4n value bytes fit
the attribute's one-byte length prefix. -/
def ASPathSegment.wfb : ASPathSegment → Bool
  | .ASSequence values => values.length ≤ 63 && values.all (· < 2 ^ 32)
  | .Unknown _ => false

/-- Well-formed attribute values: in-range, fitting the one-byte value length, and not a
multiprotocol variant. -/
def AttributeValue.wfb : AttributeValue → Bool
  | .Origin _ => true
  | .ASPath path => path.wfb
  | .NextHop nextHop => nextHop.length ≤ 255 && nextHop.all (· < 256)
  | .Communities communities => communities.length ≤ 42 && communities.all Community.wfb
  | .LargeCommunities communities =>
    communities.length ≤ 10 && communities.all LargeCommunity.wfb
  | .MPReachableNLRI _ _ _ _ => false
  | .MPUnreachableNLRI _ _ _ => false

/-- Well-formed attributes: valid flag bits, declared type agreeing with the value
shape, well-formed value. -/
def Attribute.wfb (a : Attribute) : Bool :=
  a.flags.bits < 256 && a.flags.bits % 16 == 0 && a.ty == a.value.attrType && a.value.wfb

/-- Well-formed route prefixes: bit length under 256 with exactly ceil(bits/8) byte-range
significant bytes. -/
def RoutePrefix.wfb : RoutePrefix → Bool
  | .IPv4 prefixLength prefixBytes =>
    prefixLength < 256 && prefixBytes.length == (prefixLength + 7) / 8 &&
      prefixBytes.all (· < 256)

/-- Well-formed messages: the class for which encode succeeds and decode inverts it. -/
def Packet.wfb : Packet → Bool
  | .Open version autonomousSystem holdTime bgpIdent optParams =>
    version < 256 && autonomousSystem < 2 ^ 16 &&
      (holdTime == 0 || 3 ≤ holdTime) && holdTime < 2 ^ 16 && bgpIdent < 2 ^ 32 &&
      optParams.all OptionalParameter.wfb &&
      29 + (optParams.flatMap encOptParam).length ≤ 4096
  | .Update withdrawnRoutes nlri attributes =>
    withdrawnRoutes.all RoutePrefix.wfb && nlri.all RoutePrefix.wfb &&
      attributes.all Attribute.wfb &&
      25 + (withdrawnRoutes.flatMap encPrefix).length + (attributes.flatMap encAttr).length
        + (nlri.flatMap encPrefix).length ≤ 4096
  | .Notification errorCode subCode data =>
    ErrorCode.fromU8 (errorCode.toU8 % 256) == errorCode && subCode < 256 &&
      data.all (· < 256) && 21 + data.length ≤ 4096
  | .KeepAlive => true
  | .RouteRefresh => true

/-- The Update message of the repository's test suite (src/test/bgp/mod.rs,
test_update_packet): one withdrawn /16, one announced /8, and Origin, NextHop and
Communities attributes. -/
def sampleUpdate : Packet :=
  .Update [.IPv4 16 [255, 255]] [.IPv4 8 [255]]
    [⟨.Origin, ⟨0⟩, .Origin .IGP⟩,
     ⟨.NextHop, ⟨128⟩, .NextHop [127, 168, 0, 1]⟩,
     ⟨.Community, ⟨128⟩, .Communities [⟨127127127, 1⟩, ⟨127127128, 2⟩]⟩]

/-! Arithmetic and list helpers. -/

theorem getD_concat (pre rest : List Nat) (x : Nat) :
    (pre ++ x :: rest).getD pre.length 0 = x := by
  induction pre with
  | nil => rfl
  | cons a l ih => simpa using ih

theorem beBytes_length (n v : Nat) : (beBytes n v).length = n := by
  induction n generalizing v with
  | zero => rfl
  | succ k ih => simp [beBytes, ih]

theorem beBytes_lt (n v : Nat) : ∀ x ∈ beBytes n v, x < 256 := by
  induction n generalizing v with
  | zero => simp [beBytes]
  | succ k ih =>
    intro x hx
    rw [beBytes] at hx
    rcases List.mem_append.mp hx with h | h
    · exact ih _ _ h
    · simp at h
      omega

theorem beToNat_append_one (l : List Nat) (x : Nat) :
    beToNat (l ++ [x]) = beToNat l * 256 + x := by
  simp [beToNat, List.foldl_append]

theorem mod_mul_256 (v K : Nat) : v % (K * 256) = v / 256 % K * 256 + v % 256 := by
  rcases Nat.eq_zero_or_pos K with hK | hK
  · subst hK
    have h := Nat.div_add_mod v 256
    simp only [Nat.zero_mul, Nat.mod_zero]
    omega
  · have hqr := Nat.div_add_mod (v / 256) K
    have hrK : v / 256 % K < K := Nat.mod_lt _ hK
    have hexp : v = K * 256 * (v / 256 / K) + (v / 256 % K * 256 + v % 256) := by
      have h2 := Nat.div_add_mod v 256
      calc v = 256 * (v / 256) + v % 256 := h2.symm
        _ = 256 * (K * (v / 256 / K) + v / 256 % K) + v % 256 := by rw [hqr]
        _ = K * 256 * (v / 256 / K) + (v / 256 % K * 256 + v % 256) := by ring
    calc v % (K * 256) = (K * 256 * (v / 256 / K) + (v / 256 % K * 256 + v % 256)) % (K * 256) := by
          rw [← hexp]
      _ = (v / 256 % K * 256 + v % 256) % (K * 256) := by rw [Nat.mul_add_mod]
      _ = v / 256 % K * 256 + v % 256 := by
          apply Nat.mod_eq_of_lt
          have hs : v % 256 < 256 := Nat.mod_lt _ (by omega)
          omega

theorem beToNat_beBytes (n v : Nat) : beToNat (beBytes n v) = v % 256 ^ n := by
  induction n generalizing v with
  | zero => simp [beBytes, beToNat, Nat.mod_one]
  | succ k ih => rw [beBytes, beToNat_append_one, ih, pow_succ, mod_mul_256]

theorem map_mod_eq_self {l : List Nat} (h : ∀ x ∈ l, x < 256) : l.map (· % 256) = l := by
  induction l with
  | nil => rfl
  | cons a l ih =>
    simp only [List.map_cons, List.cons.injEq]
    exact ⟨Nat.mod_eq_of_lt (h a (by simp)), ih fun x hx => h x (by simp [hx])⟩

theorem length_le_flatMap {α : Type} (enc : α → List Nat) (xs : List α)
    (h : ∀ x ∈ xs, 0 < (enc x).length) : xs.length ≤ (xs.flatMap enc).length := by
  induction xs with
  | nil => simp
  | cons a l ih =>
    have ha := h a (by simp)
    have hl := ih fun x hx => h x (by simp [hx])
    simp only [List.flatMap_cons, List.length_append, List.length_cons]
    omega

/-! Reading from a buffer whose unread suffix starts with a known byte list. -/

theorem remaining_at (pre mid rest : List Nat) (o : ByteOrder) :
    (⟨pre ++ mid ++ rest, pre.length, o⟩ : Buffer).remaining = mid.length + rest.length := by
  simp [Buffer.remaining]

theorem u8read_at (pre rest : List Nat) (x : Nat) (o : ByteOrder) :
    u8read ⟨pre ++ x :: rest, pre.length, o⟩ = .ok x ⟨pre ++ x :: rest, pre.length + 1, o⟩ := by
  have hrem : (⟨pre ++ x :: rest, pre.length, o⟩ : Buffer).remaining = rest.length + 1 := by
    simpa using remaining_at pre (x :: rest) [] o
  unfold u8read Buffer.isEmpty
  rw [hrem, if_neg (by simp), getD_concat]

theorem readU8s_at (mid : List Nat) : ∀ (pre rest : List Nat) (o : ByteOrder),
    readU8s mid.length ⟨pre ++ mid ++ rest, pre.length, o⟩ =
      .ok mid ⟨pre ++ mid ++ rest, pre.length + mid.length, o⟩ := by
  induction mid with
  | nil => intro pre rest o; simp [readU8s]
  | cons a l ih =>
    intro pre rest o
    have hshape : pre ++ (a :: l) ++ rest = pre ++ a :: (l ++ rest) := by simp
    have hshape2 : pre ++ a :: (l ++ rest) = (pre ++ [a]) ++ l ++ rest := by simp
    show readU8s (l.length + 1) _ = _
    rw [readU8s, hshape, u8read_at, Res.bind]
    have hpos : pre.length + 1 = (pre ++ [a]).length := by simp
    rw [hshape2, hpos, ih (pre ++ [a]) rest o, Res.bind]
    simp
    omega

theorem readBytesVector_at (pre mid rest : List Nat) (o : ByteOrder) :
    Buffer.readBytesVector ⟨pre ++ mid ++ rest, pre.length, o⟩ mid.length =
      .ok mid ⟨pre ++ mid ++ rest, pre.length + mid.length, o⟩ := by
  unfold Buffer.readBytesVector
  rw [remaining_at]
  have : ¬ (mid.length + rest.length < mid.length) := by omega
  rw [if_neg this]
  exact readU8s_at mid pre rest o

theorem readBuffer_at (pre mid rest : List Nat) (o : ByteOrder) :
    Buffer.readBuffer ⟨pre ++ mid ++ rest, pre.length, o⟩ mid.length =
      .ok ⟨mid, 0, o⟩ ⟨pre ++ mid ++ rest, pre.length + mid.length, o⟩ := by
  unfold Buffer.readBuffer
  rw [readBytesVector_at, Res.bind]

theorem numRead_at (pre rest : List Nat) (n v : Nat) :
    numRead n ⟨pre ++ beBytes n v ++ rest, pre.length, .BigEndian⟩ =
      .ok (v % 256 ^ n) ⟨pre ++ beBytes n v ++ rest, pre.length + n, .BigEndian⟩ := by
  unfold numRead
  have h := readBytesVector_at pre (beBytes n v) rest .BigEndian
  rw [beBytes_length] at h
  rw [h, Res.bind]
  simp [beToNat_beBytes]

theorem numRead_at_lt (pre rest : List Nat) (n v : Nat) (hv : v < 256 ^ n) :
    numRead n ⟨pre ++ beBytes n v ++ rest, pre.length, .BigEndian⟩ =
      .ok v ⟨pre ++ beBytes n v ++ rest, pre.length + n, .BigEndian⟩ := by
  rw [numRead_at, Nat.mod_eq_of_lt hv]

theorem readWhileRemaining_flatMap {α : Type} (f : Buffer → Res α) (enc : α → List Nat)
    (items : List α)
    (hf : ∀ x ∈ items, ∀ pre rest : List Nat,
      f ⟨pre ++ enc x ++ rest, pre.length, .BigEndian⟩ =
        .ok x ⟨pre ++ enc x ++ rest, pre.length + (enc x).length, .BigEndian⟩)
    (hpos : ∀ x ∈ items, 0 < (enc x).length) :
    ∀ (fuel : Nat) (pre : List Nat), items.length ≤ fuel →
    readWhileRemaining f fuel ⟨pre ++ items.flatMap enc, pre.length, .BigEndian⟩ =
      .ok items
        ⟨pre ++ items.flatMap enc, pre.length + (items.flatMap enc).length, .BigEndian⟩ := by
  induction items with
  | nil =>
    intro fuel pre hfuel
    have hrem : (⟨pre ++ ([] : List α).flatMap enc, pre.length, .BigEndian⟩ : Buffer).remaining
        = 0 := by simp [Buffer.remaining]
    cases fuel with
    | zero => rw [readWhileRemaining, hrem]; simp
    | succ k => rw [readWhileRemaining, hrem]; simp
  | cons a l ih =>
    intro fuel pre hfuel
    obtain ⟨k, rfl⟩ : ∃ k, fuel = k + 1 := ⟨fuel - 1, by simp at hfuel; omega⟩
    have hsplit : (a :: l).flatMap enc = enc a ++ l.flatMap enc := by simp
    have hrem : (⟨pre ++ (a :: l).flatMap enc, pre.length, .BigEndian⟩ : Buffer).remaining
        = ((a :: l).flatMap enc).length := by
      simpa using remaining_at pre ((a :: l).flatMap enc) [] .BigEndian
    have hgt : 0 < ((a :: l).flatMap enc).length := by
      rw [hsplit]
      have := hpos a (by simp)
      simp
      omega
    rw [readWhileRemaining, hrem, if_pos hgt]
    have hb : pre ++ (a :: l).flatMap enc = pre ++ enc a ++ l.flatMap enc := by simp [hsplit]
    rw [hb, hf a (by simp) pre (l.flatMap enc), Res.bind]
    have hpos2 : pre.length + (enc a).length = (pre ++ enc a).length := by simp
    rw [hpos2, ih (fun x hx => hf x (by simp [hx])) (fun x hx => hpos x (by simp [hx])) k
      (pre ++ enc a) (by simp at hfuel; omega), Res.bind]
    simp [hsplit]
    omega

theorem readN_flatMap {α : Type} (f : Buffer → Res α) (enc : α → List Nat)
    (items : List α)
    (hf : ∀ x ∈ items, ∀ pre rest : List Nat,
      f ⟨pre ++ enc x ++ rest, pre.length, .BigEndian⟩ =
        .ok x ⟨pre ++ enc x ++ rest, pre.length + (enc x).length, .BigEndian⟩) :
    ∀ (pre rest : List Nat),
    readN f items.length ⟨pre ++ items.flatMap enc ++ rest, pre.length, .BigEndian⟩ =
      .ok items ⟨pre ++ items.flatMap enc ++ rest,
        pre.length + (items.flatMap enc).length, .BigEndian⟩ := by
  induction items with
  | nil => intro pre rest; simp [readN]
  | cons a l ih =>
    intro pre rest
    show readN f (l.length + 1) _ = _
    have hb : pre ++ (a :: l).flatMap enc ++ rest = pre ++ enc a ++ (l.flatMap enc ++ rest) := by
      simp
    rw [readN, hb, hf a (by simp) pre (l.flatMap enc ++ rest), Res.bind]
    have hpos2 : pre.length + (enc a).length = (pre ++ enc a).length := by simp
    have hb2 : pre ++ enc a ++ (l.flatMap enc ++ rest) = (pre ++ enc a) ++ l.flatMap enc ++ rest := by
      simp
    rw [hpos2, hb2, ih (fun x hx => hf x (by simp [hx])) (pre ++ enc a) rest, Res.bind]
    simp
    omega

/-! Writing into a buffer positioned at its end appends the wire image. -/

theorem u8write_end (l : List Nat) (v : Nat) (o : ByteOrder) :
    u8write v ⟨l, l.length, o⟩ = ⟨l ++ [v % 256], l.length + 1, o⟩ := by
  simp [u8write, List.insertIdx_length_self]

theorem writeBytes_end (data : List Nat) : ∀ (l : List Nat) (o : ByteOrder),
    writeBytes data ⟨l, l.length, o⟩ =
      ⟨l ++ data.map (· % 256), l.length + data.length, o⟩ := by
  induction data with
  | nil => intro l o; simp [writeBytes]
  | cons a d ih =>
    intro l o
    show (a :: d).foldl (fun acc x => u8write x acc) _ = _
    rw [List.foldl_cons, u8write_end]
    have hlen : l.length + 1 = (l ++ [a % 256]).length := by simp
    rw [hlen]
    show writeBytes d _ = _
    rw [ih (l ++ [a % 256]) o]
    simp
    omega

theorem numWrite_end (l : List Nat) (n v : Nat) :
    numWrite n v ⟨l, l.length, .BigEndian⟩ = ⟨l ++ beBytes n v, l.length + n, .BigEndian⟩ := by
  unfold numWrite
  rw [if_pos rfl, writeBytes_end, map_mod_eq_self (beBytes_lt n v), beBytes_length]

theorem writeBuffer_end (src : Buffer) (l : List Nat) (o : ByteOrder)
    (h : ∀ x ∈ src.bytes, x < 256) :
    src.writeBuffer ⟨l, l.length, o⟩ = ⟨l ++ src.bytes, l.length + src.bytes.length, o⟩ := by
  unfold Buffer.writeBuffer
  rw [writeBytes_end, map_mod_eq_self h]

theorem foldlWrite_end {α : Type} (f : α → Buffer → Buffer) (enc : α → List Nat)
    (items : List α)
    (hf : ∀ x ∈ items, ∀ l : List Nat, f x ⟨l, l.length, .BigEndian⟩ =
      ⟨l ++ enc x, (l ++ enc x).length, .BigEndian⟩) :
    ∀ l : List Nat, items.foldl (fun acc x => f x acc) ⟨l, l.length, .BigEndian⟩ =
      ⟨l ++ items.flatMap enc, (l ++ items.flatMap enc).length, .BigEndian⟩ := by
  induction items with
  | nil => intro l; simp
  | cons a d ih =>
    intro l
    rw [List.foldl_cons, hf a (by simp) l]
    have := ih (fun x hx => hf x (by simp [hx])) (l ++ enc a)
    rw [List.length_append] at this ⊢
    rw [this]
    simp

theorem writeList_end {α : Type} (f : α → Buffer → Except ErrType Buffer)
    (enc : α → List Nat) (items : List α)
    (hf : ∀ x ∈ items, ∀ l : List Nat, f x ⟨l, l.length, .BigEndian⟩ =
      .ok ⟨l ++ enc x, (l ++ enc x).length, .BigEndian⟩) :
    ∀ l : List Nat, writeList f items ⟨l, l.length, .BigEndian⟩ =
      .ok ⟨l ++ items.flatMap enc, (l ++ items.flatMap enc).length, .BigEndian⟩ := by
  induction items with
  | nil => intro l; simp [writeList]
  | cons a d ih =>
    intro l
    rw [writeList, hf a (by simp) l]
    show writeList f d _ = _
    have hlen : (l ++ enc a).length = (l ++ enc a).length := rfl
    have := ih (fun x hx => hf x (by simp [hx])) (l ++ enc a)
    rw [this]
    simp

theorem u8write_endL (l : List Nat) (v : Nat) (o : ByteOrder) :
    u8write v ⟨l, l.length, o⟩ = ⟨l ++ [v % 256], (l ++ [v % 256]).length, o⟩ := by
  rw [u8write_end]
  simp

theorem writeBytes_endL (data l : List Nat) (o : ByteOrder) :
    writeBytes data ⟨l, l.length, o⟩ =
      ⟨l ++ data.map (· % 256), (l ++ data.map (· % 256)).length, o⟩ := by
  rw [writeBytes_end]
  simp

theorem numWrite_endL (l : List Nat) (n v : Nat) :
    numWrite n v ⟨l, l.length, .BigEndian⟩ =
      ⟨l ++ beBytes n v, (l ++ beBytes n v).length, .BigEndian⟩ := by
  rw [numWrite_end]
  simp [beBytes_length]

theorem writeBuffer_endL (src : Buffer) (l : List Nat) (o : ByteOrder)
    (h : ∀ x ∈ src.bytes, x < 256) :
    src.writeBuffer ⟨l, l.length, o⟩ = ⟨l ++ src.bytes, (l ++ src.bytes).length, o⟩ := by
  rw [writeBuffer_end src l o h]
  simp

/-! Every byte of a wire image is in range. -/

theorem AttributeType.discriminant_lt (t : AttributeType) : t.discriminant < 256 := by
  cases t <;> decide

theorem encCap_lt (c : Capability) (hc : c.wfb = true) : ∀ x ∈ encCap c, x < 256 := by
  cases c with
  | RouteRefresh => intro x hx; simp [encCap] at hx; omega
  | FourOctetASNumberSupport asn =>
    intro x hx
    simp [encCap] at hx
    rcases hx with h | h | h
    · omega
    · omega
    · exact beBytes_lt _ _ _ h
  | EnhancedRouteRefresh => intro x hx; simp [encCap] at hx; omega
  | LongLivedGracefulRestart => intro x hx; simp [encCap] at hx; omega
  | MultiProtocolExtensions afi safi =>
    intro x hx
    simp [encCap] at hx
    rcases hx with h | h | h | h | h
    · omega
    · omega
    · exact beBytes_lt _ _ _ h
    · omega
    · omega
  | Unknown id value => simp [Capability.wfb] at hc

theorem encOptParam_lt (p : OptionalParameter) (hp : p.wfb = true) :
    ∀ x ∈ encOptParam p, x < 256 := by
  cases p with
  | Capabilities capabilities =>
    intro x hx
    simp only [OptionalParameter.wfb, Bool.and_eq_true, List.all_eq_true] at hp
    simp only [encOptParam, List.mem_cons] at hx
    rcases hx with h | h | h
    · omega
    · have := Nat.mod_lt ((capabilities.flatMap encCap).length) (show 0 < 256 by omega)
      omega
    · obtain ⟨c, hc, hxc⟩ := List.mem_flatMap.mp h
      exact encCap_lt c (hp.1 c hc) x hxc

theorem encCommunity_lt (c : Community) : ∀ x ∈ encCommunity c, x < 256 := by
  intro x hx
  simp [encCommunity] at hx
  rcases hx with h | h <;> exact beBytes_lt _ _ _ h

theorem encLargeCommunity_lt (c : LargeCommunity) : ∀ x ∈ encLargeCommunity c, x < 256 := by
  intro x hx
  simp [encLargeCommunity] at hx
  rcases hx with h | h | h <;> exact beBytes_lt _ _ _ h

theorem encASPathSegment_lt (s : ASPathSegment) : ∀ x ∈ encASPathSegment s, x < 256 := by
  cases s with
  | ASSequence values =>
    intro x hx
    simp [encASPathSegment] at hx
    rcases hx with h | h | h
    · omega
    · have := Nat.mod_lt values.length (show 0 < 256 by omega)
      omega
    · obtain ⟨v, _, hxv⟩ := h
      exact beBytes_lt _ _ _ hxv
  | Unknown ty => simp [encASPathSegment]

theorem encAttrValue_lt (v : AttributeValue) : ∀ x ∈ encAttrValue v, x < 256 := by
  cases v with
  | Origin origin =>
    intro x hx
    simp [encAttrValue] at hx
    cases origin <;> simp [Origin.toU8] at hx <;> omega
  | ASPath path => exact encASPathSegment_lt path
  | NextHop nextHop =>
    intro x hx
    simp [encAttrValue] at hx
    obtain ⟨y, _, hy⟩ := hx
    omega
  | Communities communities =>
    intro x hx
    simp only [encAttrValue] at hx
    obtain ⟨c, _, hxc⟩ := List.mem_flatMap.mp hx
    exact encCommunity_lt c x hxc
  | LargeCommunities communities =>
    intro x hx
    simp only [encAttrValue] at hx
    obtain ⟨c, _, hxc⟩ := List.mem_flatMap.mp hx
    exact encLargeCommunity_lt c x hxc
  | MPReachableNLRI afi safi nextHop nlri => simp [encAttrValue]
  | MPUnreachableNLRI afi safi withdrawnRoutes => simp [encAttrValue]

theorem encAttr_lt (a : Attribute) : ∀ x ∈ encAttr a, x < 256 := by
  intro x hx
  simp only [encAttr, List.mem_cons] at hx
  rcases hx with h | h | h | h
  · have := Nat.mod_lt a.flags.bits (show 0 < 256 by omega)
    omega
  · have := a.ty.discriminant_lt
    omega
  · have := Nat.mod_lt ((encAttrValue a.value).length) (show 0 < 256 by omega)
    omega
  · exact encAttrValue_lt a.value x h

theorem encPrefix_lt (r : RoutePrefix) : ∀ x ∈ encPrefix r, x < 256 := by
  cases r with
  | IPv4 prefixLength prefixBytes =>
    intro x hx
    simp [encPrefix] at hx
    rcases hx with h | h
    · have := Nat.mod_lt prefixLength (show 0 < 256 by omega)
      omega
    · obtain ⟨y, _, hy⟩ := h
      omega

theorem encBody_lt (p : Packet) (hp : p.wfb = true) : ∀ x ∈ encBody p, x < 256 := by
  cases p with
  | Open version autonomousSystem holdTime bgpIdent optParams =>
    intro x hx
    simp only [Packet.wfb, Bool.and_eq_true, List.all_eq_true] at hp
    simp only [encBody, List.mem_cons, List.mem_append] at hx
    rcases hx with h | h
    · have := Nat.mod_lt version (show 0 < 256 by omega)
      omega
    · rcases h with (h | h) | h
      · rcases h with h | h <;> exact beBytes_lt _ _ _ h
      · exact beBytes_lt _ _ _ h
      · rcases h with h | h
        · have := Nat.mod_lt ((optParams.flatMap encOptParam).length) (show 0 < 256 by omega)
          omega
        · obtain ⟨q, hq, hxq⟩ := List.mem_flatMap.mp h
          have hall : ∀ y ∈ optParams, y.wfb = true := by tauto
          exact encOptParam_lt q (hall q hq) x hxq
  | Update withdrawnRoutes nlri attributes =>
    intro x hx
    simp only [encBody, List.mem_append] at hx
    rcases hx with ((((h | h) | h) | h) | h) | h
    · exact beBytes_lt _ _ _ h
    · obtain ⟨r, _, hxr⟩ := List.mem_flatMap.mp h
      exact encPrefix_lt r x hxr
    · exact beBytes_lt _ _ _ h
    · obtain ⟨a, _, hxa⟩ := List.mem_flatMap.mp h
      exact encAttr_lt a x hxa
    · exact beBytes_lt _ _ _ h
    · obtain ⟨r, _, hxr⟩ := List.mem_flatMap.mp h
      exact encPrefix_lt r x hxr
  | Notification errorCode subCode data =>
    intro x hx
    simp only [encBody, List.mem_cons] at hx
    rcases hx with h | h | h
    · have := Nat.mod_lt errorCode.toU8 (show 0 < 256 by omega)
      omega
    · have := Nat.mod_lt subCode (show 0 < 256 by omega)
      omega
    · simp at h
      obtain ⟨y, _, hy⟩ := h
      omega
  | KeepAlive => simp [encBody]
  | RouteRefresh => simp [encBody]

/-! Write lemmas: each write function appends exactly the wire image. -/

theorem empty_big (o : ByteOrder) :
    Buffer.empty o = ⟨([] : List Nat), ([] : List Nat).length, o⟩ := rfl

theorem mod256_idem (x : Nat) : x % 256 % 256 = x % 256 := Nat.mod_mod_of_dvd x (dvd_refl 256)

theorem PacketType.toU8_lt (ty : PacketType) : ty.toU8 < 256 := by
  cases ty <;> decide

theorem communityWrite_end (c : Community) (l : List Nat) :
    Community.write c ⟨l, l.length, .BigEndian⟩ =
      ⟨l ++ encCommunity c, (l ++ encCommunity c).length, .BigEndian⟩ := by
  unfold Community.write
  rw [numWrite_endL, numWrite_endL]
  simp [encCommunity]

theorem largeCommunityWrite_end (c : LargeCommunity) (l : List Nat) :
    LargeCommunity.write c ⟨l, l.length, .BigEndian⟩ =
      ⟨l ++ encLargeCommunity c, (l ++ encLargeCommunity c).length, .BigEndian⟩ := by
  unfold LargeCommunity.write
  rw [numWrite_endL, numWrite_endL, numWrite_endL]
  simp [encLargeCommunity]

theorem routePrefixWrite_end (r : RoutePrefix) (l : List Nat) :
    RoutePrefix.write r ⟨l, l.length, .BigEndian⟩ =
      ⟨l ++ encPrefix r, (l ++ encPrefix r).length, .BigEndian⟩ := by
  cases r with
  | IPv4 prefixLength prefixBytes =>
    unfold RoutePrefix.write
    dsimp only
    rw [u8write_endL, writeBytes_endL]
    simp [encPrefix]

theorem asPathSegmentWrite_end (values : List Nat) (l : List Nat) :
    ASPathSegment.write (.ASSequence values) ⟨l, l.length, .BigEndian⟩ =
      .ok ⟨l ++ encASPathSegment (.ASSequence values),
        (l ++ encASPathSegment (.ASSequence values)).length, .BigEndian⟩ := by
  unfold ASPathSegment.write
  simp only [ASPathSegment.toU8]
  rw [u8write_endL, u8write_endL,
    foldlWrite_end (fun v acc => numWrite 4 v acc) (beBytes 4) values
      (fun x _ l' => numWrite_endL l' 4 x)]
  simp [encASPathSegment, mod256_idem]

theorem Capability.write_unknown (id : Nat) (value : List Nat) (b : Buffer) :
    Capability.write (.Unknown id value) b =
      .error (.BGPError (BGPError.openError .UnsupportedOptionalParameter)) := rfl

theorem capabilityWrite_end (c : Capability) (hc : c.wfb = true) (l : List Nat) :
    Capability.write c ⟨l, l.length, .BigEndian⟩ =
      .ok ⟨l ++ encCap c, (l ++ encCap c).length, .BigEndian⟩ := by
  cases c with
  | RouteRefresh =>
    simp only [Capability.write, Capability.id, bind, Except.bind, u8write_endL]
    simp [Buffer.empty, Buffer.len, Buffer.writeBuffer, writeBytes, encCap]
  | FourOctetASNumberSupport asn =>
    simp only [Capability.write, Capability.id, bind, Except.bind, u8write_endL]
    rw [empty_big, numWrite_endL]
    simp only [Buffer.len]
    rw [writeBuffer_endL _ _ _ (by intro x hx; simp at hx; exact beBytes_lt _ _ _ hx)]
    simp [encCap, beBytes_length, mod256_idem]
  | EnhancedRouteRefresh =>
    simp only [Capability.write, Capability.id, bind, Except.bind, u8write_endL]
    simp [Buffer.empty, Buffer.len, Buffer.writeBuffer, writeBytes, encCap]
  | LongLivedGracefulRestart =>
    simp only [Capability.write, Capability.id, bind, Except.bind, u8write_endL]
    simp [Buffer.empty, Buffer.len, Buffer.writeBuffer, writeBytes, encCap]
  | MultiProtocolExtensions afi safi =>
    cases afi <;> cases safi <;> simp only [Capability.wfb] at hc <;> try contradiction
    all_goals (
      simp only [Capability.write, Capability.id, AFI.intoU16, SAFI.intoU8, bind, Except.bind,
        u8write_endL]
      rw [empty_big, numWrite_endL]
      simp only [u8write_endL, Buffer.len]
      rw [writeBuffer_endL _ _ _ (by
        intro x hx
        simp at hx
        rcases hx with h | h | h
        · exact beBytes_lt _ _ _ h
        · omega
        · omega)]
      simp [encCap, AFI.intoU16, SAFI.intoU8, beBytes_length, mod256_idem])
  | Unknown id value => simp [Capability.wfb] at hc

theorem optParamWrite_end (p : OptionalParameter) (hp : p.wfb = true) (l : List Nat) :
    OptionalParameter.write p ⟨l, l.length, .BigEndian⟩ =
      .ok ⟨l ++ encOptParam p, (l ++ encOptParam p).length, .BigEndian⟩ := by
  cases p with
  | Capabilities capabilities =>
    simp only [OptionalParameter.wfb, Bool.and_eq_true, List.all_eq_true,
      decide_eq_true_eq] at hp
    simp only [OptionalParameter.write, OptionalParameter.id, bind, Except.bind, u8write_endL]
    rw [empty_big,
      writeList_end Capability.write encCap capabilities
        (fun c hcm l' => capabilityWrite_end c (hp.1 c hcm) l')]
    simp only [Buffer.len]
    rw [writeBuffer_endL _ _ _ (by
      intro x hx
      simp at hx
      obtain ⟨c, hcm, hxc⟩ := hx
      exact encCap_lt c (hp.1 c hcm) x hxc)]
    simp [encOptParam, mod256_idem]

theorem attributeWrite_end (a : Attribute) (ha : a.value.wfb = true) (l : List Nat) :
    Attribute.write a ⟨l, l.length, .BigEndian⟩ =
      .ok ⟨l ++ encAttr a, (l ++ encAttr a).length, .BigEndian⟩ := by
  have hd : a.ty.discriminant % 256 = a.ty.discriminant :=
    Nat.mod_eq_of_lt a.ty.discriminant_lt
  rcases ha2 : a.value with origin | path | nextHop | communities | communities | _ | _
  · simp only [Attribute.write, ha2, bind, Except.bind, u8write_endL]
    rw [empty_big]
    simp only [u8write_endL, Buffer.len]
    rw [writeBuffer_endL _ _ _ (by
      intro x hx
      simp at hx
      cases origin <;> simp [Origin.toU8] at hx <;> omega)]
    simp [encAttr, ha2, encAttrValue, hd, mod256_idem]
    cases origin <;> simp [Origin.toU8]
  · rcases path with values | ty2
    · simp only [Attribute.write, ha2, bind, Except.bind, u8write_endL]
      rw [empty_big, asPathSegmentWrite_end]
      simp only [Buffer.len]
      rw [writeBuffer_endL _ _ _ (by
        intro x hx
        simp at hx
        exact encASPathSegment_lt _ x (by simpa using hx))]
      simp [encAttr, ha2, encAttrValue, hd, mod256_idem]
    · rw [ha2] at ha
      simp [AttributeValue.wfb, ASPathSegment.wfb] at ha
  · simp only [Attribute.write, ha2, bind, Except.bind, u8write_endL]
    rw [empty_big, writeBytes_endL]
    simp only [Buffer.len]
    rw [writeBuffer_endL _ _ _ (by
      intro x hx
      simp at hx
      obtain ⟨y, _, hy⟩ := hx
      omega)]
    simp [encAttr, ha2, encAttrValue, hd, mod256_idem]
  · simp only [Attribute.write, ha2, bind, Except.bind, u8write_endL]
    rw [empty_big,
      foldlWrite_end (fun c acc => Community.write c acc) encCommunity communities
        (fun x _ l' => communityWrite_end x l')]
    simp only [Buffer.len]
    rw [writeBuffer_endL _ _ _ (by
      intro x hx
      simp at hx
      obtain ⟨c, _, hxc⟩ := hx
      exact encCommunity_lt c x hxc)]
    simp [encAttr, ha2, encAttrValue, hd, mod256_idem]
  · simp only [Attribute.write, ha2, bind, Except.bind, u8write_endL]
    rw [empty_big,
      foldlWrite_end (fun c acc => LargeCommunity.write c acc) encLargeCommunity communities
        (fun x _ l' => largeCommunityWrite_end x l')]
    simp only [Buffer.len]
    rw [writeBuffer_endL _ _ _ (by
      intro x hx
      simp at hx
      obtain ⟨c, _, hxc⟩ := hx
      exact encLargeCommunity_lt c x hxc)]
    simp [encAttr, ha2, encAttrValue, hd, mod256_idem]
  · rw [ha2] at ha
    simp [AttributeValue.wfb] at ha
  · rw [ha2] at ha
    simp [AttributeValue.wfb] at ha

theorem BGPHeader.write_byType_end (ty : PacketType) (length : Nat) (l : List Nat) :
    BGPHeader.write (BGPHeader.byType ty length) ⟨l, l.length, .BigEndian⟩ =
      ⟨l ++ (List.replicate 16 255 ++ beBytes 2 length ++ [ty.toU8]),
       (l ++ (List.replicate 16 255 ++ beBytes 2 length ++ [ty.toU8])).length, .BigEndian⟩ := by
  unfold BGPHeader.write BGPHeader.byType
  dsimp only
  rw [writeBytes_endL, numWrite_endL, u8write_endL]
  rw [map_mod_eq_self (by intro x hx; simp at hx; omega)]
  simp [Nat.mod_eq_of_lt (PacketType.toU8_lt ty)]

theorem packet_write_keepalive (l : List Nat) :
    Packet.write .KeepAlive ⟨l, l.length, .BigEndian⟩ =
      .ok ⟨l ++ encPacket .KeepAlive, (l ++ encPacket .KeepAlive).length, .BigEndian⟩ := by
  simp only [Packet.write, bind, Except.bind, PacketType.fromPacket]
  rw [BGPHeader.write_byType_end]
  simp only [Buffer.len, Buffer.empty]
  rw [writeBuffer_endL _ _ _ (by intro x hx; simp [Buffer.empty] at hx)]
  simp [encPacket, encBody, PacketType.fromPacket]

theorem packet_write_notification (ec : ErrorCode) (sub : Nat) (data : List Nat) (l : List Nat) :
    Packet.write (.Notification ec sub data) ⟨l, l.length, .BigEndian⟩ =
      .ok ⟨l ++ encPacket (.Notification ec sub data),
        (l ++ encPacket (.Notification ec sub data)).length, .BigEndian⟩ := by
  simp only [Packet.write, bind, Except.bind, PacketType.fromPacket]
  rw [empty_big]
  simp only [u8write_endL]
  rw [writeBytes_endL]
  simp only [Buffer.len]
  rw [BGPHeader.write_byType_end]
  rw [writeBuffer_endL _ _ _ (by
    intro x hx
    simp at hx
    rcases hx with h | h | h
    · have := Nat.mod_lt ec.toU8 (show 0 < 256 by omega); omega
    · have := Nat.mod_lt sub (show 0 < 256 by omega); omega
    · obtain ⟨y, _, hy⟩ := h; omega)]
  simp [encPacket, encBody, PacketType.fromPacket, mod256_idem]
theorem writeBuffer_endM (src : Buffer) (l : List Nat) (o : ByteOrder) :
    src.writeBuffer ⟨l, l.length, o⟩ =
      ⟨l ++ src.bytes.map (· % 256), (l ++ src.bytes.map (· % 256)).length, o⟩ := by
  unfold Buffer.writeBuffer
  rw [writeBytes_endL]

theorem map_mod_beBytes (n v : Nat) : (beBytes n v).map (· % 256) = beBytes n v :=
  map_mod_eq_self (beBytes_lt n v)

theorem map_mod_encPrefix (rs : List RoutePrefix) :
    (rs.flatMap encPrefix).map (· % 256) = rs.flatMap encPrefix :=
  map_mod_eq_self (by
    intro x hx
    obtain ⟨r, _, hxr⟩ := List.mem_flatMap.mp hx
    exact encPrefix_lt r x hxr)

theorem map_mod_encAttr (attrs : List Attribute) :
    (attrs.flatMap encAttr).map (· % 256) = attrs.flatMap encAttr :=
  map_mod_eq_self (by
    intro x hx
    obtain ⟨aa, _, hxa⟩ := List.mem_flatMap.mp hx
    exact encAttr_lt aa x hxa)

theorem map_mod_encOptParam (ps : List OptionalParameter) (hps : ∀ x ∈ ps, x.wfb = true) :
    (ps.flatMap encOptParam).map (· % 256) = ps.flatMap encOptParam :=
  map_mod_eq_self (by
    intro x hx
    obtain ⟨q, hq, hxq⟩ := List.mem_flatMap.mp hx
    exact encOptParam_lt q (hps q hq) x hxq)

theorem packet_write_open (v a ht ident : Nat) (ps : List OptionalParameter)
    (hps : ∀ x ∈ ps, x.wfb = true) (l : List Nat) :
    Packet.write (.Open v a ht ident ps) ⟨l, l.length, .BigEndian⟩ =
      .ok ⟨l ++ encPacket (.Open v a ht ident ps),
        (l ++ encPacket (.Open v a ht ident ps)).length, .BigEndian⟩ := by
  simp only [Packet.write, bind, Except.bind, PacketType.fromPacket]
  rw [empty_big]
  simp only [u8write_endL]
  rw [numWrite_endL, numWrite_endL, numWrite_endL,
    writeList_end OptionalParameter.write encOptParam ps
      (fun q hq l' => optParamWrite_end q (hps q hq) l')]
  simp only [Buffer.len]
  simp only [u8write_endL]
  rw [writeBuffer_endM]
  simp only [Buffer.len]
  rw [BGPHeader.write_byType_end, writeBuffer_endM]
  simp [encPacket, encBody, PacketType.fromPacket, mod256_idem, map_mod_beBytes,
    map_mod_encOptParam ps hps, List.map_map, Function.comp]

theorem packet_write_update (wr nl : List RoutePrefix) (attrs : List Attribute)
    (hattrs : ∀ x ∈ attrs, x.value.wfb = true) (l : List Nat) :
    Packet.write (.Update wr nl attrs) ⟨l, l.length, .BigEndian⟩ =
      .ok ⟨l ++ encPacket (.Update wr nl attrs),
        (l ++ encPacket (.Update wr nl attrs)).length, .BigEndian⟩ := by
  simp only [Packet.write, bind, Except.bind, PacketType.fromPacket]
  rw [empty_big]
  rw [foldlWrite_end (fun r acc => RoutePrefix.write r acc) encPrefix wr
    (fun x _ l' => routePrefixWrite_end x l')]
  simp only [Buffer.len]
  rw [numWrite_endL, writeBuffer_endM]
  rw [writeList_end Attribute.write encAttr attrs
    (fun x hx l' => attributeWrite_end x (hattrs x hx) l')]
  simp only [Buffer.len]
  rw [numWrite_endL, writeBuffer_endM]
  rw [foldlWrite_end (fun r acc => RoutePrefix.write r acc) encPrefix nl
    (fun x _ l' => routePrefixWrite_end x l')]
  simp only [Buffer.len]
  rw [numWrite_endL, writeBuffer_endM]
  simp only [Buffer.len]
  rw [BGPHeader.write_byType_end, writeBuffer_endM]
  simp [encPacket, encBody, PacketType.fromPacket, mod256_idem, map_mod_beBytes,
    map_mod_encPrefix, map_mod_encAttr, List.map_map, Function.comp]

/-! Read lemmas: each read function recovers the value from its wire image. -/

theorem originFromU8_toU8 (o : Origin) : Origin.fromU8 o.toU8 = .ok o := by
  cases o <;> rfl

theorem AttributeType.fromRaw_discriminant (t : AttributeType) :
    AttributeType.fromRaw t.discriminant = some t := by
  cases t <;> rfl

theorem packetTypeFromU8_toU8 (ty : PacketType) : PacketType.fromU8 ty.toU8 = ty := by
  cases ty <;> rfl

theorem communityRead_at (c : Community) (hc : c.wfb = true) (pre rest : List Nat) :
    Community.read ⟨pre ++ encCommunity c ++ rest, pre.length, .BigEndian⟩ =
      .ok c ⟨pre ++ encCommunity c ++ rest, pre.length + (encCommunity c).length,
        .BigEndian⟩ := by
  obtain ⟨ca, cv⟩ := c
  simp only [Community.wfb, Bool.and_eq_true, decide_eq_true_eq] at hc
  unfold Community.read
  have h1 : pre ++ encCommunity ⟨ca, cv⟩ ++ rest =
      pre ++ beBytes 4 ca ++ (beBytes 2 cv ++ rest) := by simp [encCommunity]
  rw [h1, numRead_at_lt _ _ _ _ (by norm_num; omega), Res.bind]
  have h2 : pre ++ beBytes 4 ca ++ (beBytes 2 cv ++ rest) =
      (pre ++ beBytes 4 ca) ++ beBytes 2 cv ++ rest := by simp
  have h3 : pre.length + 4 = (pre ++ beBytes 4 ca).length := by simp [beBytes_length]
  rw [h2, h3, numRead_at_lt _ _ _ _ (by norm_num; omega), Res.bind]
  simp [encCommunity, beBytes_length]

theorem largeCommunityRead_at (c : LargeCommunity) (hc : c.wfb = true) (pre rest : List Nat) :
    LargeCommunity.read ⟨pre ++ encLargeCommunity c ++ rest, pre.length, .BigEndian⟩ =
      .ok c ⟨pre ++ encLargeCommunity c ++ rest, pre.length + (encLargeCommunity c).length,
        .BigEndian⟩ := by
  obtain ⟨g, p1, p2⟩ := c
  simp only [LargeCommunity.wfb, Bool.and_eq_true, decide_eq_true_eq] at hc
  unfold LargeCommunity.read
  have h1 : pre ++ encLargeCommunity ⟨g, p1, p2⟩ ++ rest =
      pre ++ beBytes 8 g ++ (beBytes 8 p1 ++ (beBytes 8 p2 ++ rest)) := by
    simp [encLargeCommunity]
  rw [h1, numRead_at_lt _ _ _ _ (by norm_num; omega), Res.bind]
  have h2 : pre ++ beBytes 8 g ++ (beBytes 8 p1 ++ (beBytes 8 p2 ++ rest)) =
      (pre ++ beBytes 8 g) ++ beBytes 8 p1 ++ (beBytes 8 p2 ++ rest) := by simp
  have h3 : pre.length + 8 = (pre ++ beBytes 8 g).length := by simp [beBytes_length]
  rw [h2, h3, numRead_at_lt _ _ _ _ (by norm_num; omega), Res.bind]
  have h4 : (pre ++ beBytes 8 g) ++ beBytes 8 p1 ++ (beBytes 8 p2 ++ rest) =
      ((pre ++ beBytes 8 g) ++ beBytes 8 p1) ++ beBytes 8 p2 ++ rest := by simp
  have h5 : (pre ++ beBytes 8 g).length + 8 = ((pre ++ beBytes 8 g) ++ beBytes 8 p1).length := by
    simp [beBytes_length]
  rw [h4, h5, numRead_at_lt _ _ _ _ (by norm_num; omega), Res.bind]
  simp [encLargeCommunity, beBytes_length]

theorem routePrefixRead_at (r : RoutePrefix) (hr : r.wfb = true) (pre rest : List Nat) :
    RoutePrefix.read ⟨pre ++ encPrefix r ++ rest, pre.length, .BigEndian⟩ =
      .ok r ⟨pre ++ encPrefix r ++ rest, pre.length + (encPrefix r).length, .BigEndian⟩ := by
  obtain ⟨len, pfx⟩ := r
  simp only [RoutePrefix.wfb, Bool.and_eq_true, decide_eq_true_eq, List.all_eq_true,
    beq_iff_eq] at hr
  have hlen : len < 256 := by tauto
  have hcount : pfx.length = (len + 7) / 8 := by tauto
  have hbytes : ∀ x ∈ pfx, x < 256 := by tauto
  have hmap : pfx.map (· % 256) = pfx :=
    map_mod_eq_self fun x hx => by have := hbytes x hx; omega
  unfold RoutePrefix.read
  have h1 : pre ++ encPrefix (.IPv4 len pfx) ++ rest = pre ++ len % 256 :: (pfx ++ rest) := by
    simp [encPrefix, hmap]
  rw [h1, u8read_at, Res.bind, Nat.mod_eq_of_lt hlen]
  have h2 : pre ++ len :: (pfx ++ rest) = (pre ++ [len]) ++ pfx ++ rest := by simp
  have h3 : pre.length + 1 = (pre ++ [len]).length := by simp
  have h4 : (len + 7) / 8 = pfx.length := hcount.symm
  rw [h2, h3, h4, readBytesVector_at, Res.bind]
  simp [encPrefix, hmap]
  omega

theorem asPathSegmentRead_at (values : List Nat) (hv : (ASPathSegment.ASSequence values).wfb = true)
    (pre rest : List Nat) :
    ASPathSegment.read ⟨pre ++ encASPathSegment (.ASSequence values) ++ rest, pre.length,
        .BigEndian⟩ =
      .ok (.ASSequence values) ⟨pre ++ encASPathSegment (.ASSequence values) ++ rest,
        pre.length + (encASPathSegment (.ASSequence values)).length, .BigEndian⟩ := by
  simp only [ASPathSegment.wfb, Bool.and_eq_true, decide_eq_true_eq, List.all_eq_true] at hv
  obtain ⟨hlen, hvals⟩ := hv
  unfold ASPathSegment.read
  have hm : values.length % 256 = values.length := Nat.mod_eq_of_lt (by omega)
  have h1 : pre ++ encASPathSegment (.ASSequence values) ++ rest =
      pre ++ 2 :: (values.length :: (values.flatMap (beBytes 4) ++ rest)) := by
    simp [encASPathSegment, hm]
  rw [h1, u8read_at, Res.bind, if_pos rfl]
  have h2 : pre ++ 2 :: (values.length :: (values.flatMap (beBytes 4) ++ rest)) =
      (pre ++ [2]) ++ values.length :: (values.flatMap (beBytes 4) ++ rest) := by simp
  have h3 : pre.length + 1 = (pre ++ [2]).length := by simp
  rw [h2, h3, u8read_at, Res.bind]
  have h4 : (pre ++ [2]) ++ values.length :: (values.flatMap (beBytes 4) ++ rest) =
      ((pre ++ [2]) ++ [values.length]) ++ values.flatMap (beBytes 4) ++ rest := by simp
  have h5 : (pre ++ [2]).length + 1 = ((pre ++ [2]) ++ [values.length]).length := by simp
  rw [h4, h5]
  have h6 := readN_flatMap (numRead 4) (beBytes 4) values
    (fun x hx pre' rest' => by
      have := numRead_at_lt pre' rest' 4 x (by have := hvals x hx; norm_num; omega)
      simpa [beBytes_length] using this)
    ((pre ++ [2]) ++ [values.length]) rest
  rw [h6, Res.bind]
  simp [encASPathSegment, hm]
  omega

theorem AFI.intoU16_lt {afi : AFI} {v : Nat} (h : afi.intoU16 = .ok v) : v < 65536 := by
  cases afi <;> simp [AFI.intoU16] at h <;> omega

theorem AFI.fromU16_into {afi : AFI} {v : Nat} (h : afi.intoU16 = .ok v) :
    AFI.fromU16 v = afi := by
  cases afi <;> simp [AFI.intoU16] at h <;> subst h <;> rfl

theorem SAFI.intoU8_lt {safi : SAFI} {v : Nat} (h : safi.intoU8 = .ok v) : v < 256 := by
  cases safi <;> simp [SAFI.intoU8] at h <;> omega

theorem SAFI.fromU8_into {safi : SAFI} {v : Nat} (h : safi.intoU8 = .ok v) :
    SAFI.fromU8 v = safi := by
  cases safi <;> simp [SAFI.intoU8] at h <;> subst h <;> rfl

theorem encCap_pos (c : Capability) : 0 < (encCap c).length := by
  cases c <;> simp [encCap]

theorem capabilityRead_at (c : Capability) (hc : c.wfb = true) (pre rest : List Nat) :
    Capability.read ⟨pre ++ encCap c ++ rest, pre.length, .BigEndian⟩ =
      .ok c ⟨pre ++ encCap c ++ rest, pre.length + (encCap c).length, .BigEndian⟩ := by
  cases c with
  | RouteRefresh =>
    unfold Capability.read
    have h1 : pre ++ encCap .RouteRefresh ++ rest = pre ++ 2 :: (0 :: rest) := by simp [encCap]
    rw [h1, u8read_at, Res.bind]
    have h2 : pre ++ 2 :: (0 :: rest) = (pre ++ [2]) ++ 0 :: rest := by simp
    have h3 : pre.length + 1 = (pre ++ [2]).length := by simp
    rw [h2, h3, u8read_at, Res.bind]
    have h4 : (pre ++ [2]) ++ 0 :: rest = (pre ++ [2, 0]) ++ ([] : List Nat) ++ rest := by simp
    have h5 : (pre ++ [2]).length + 1 = (pre ++ [2, 0]).length := by simp
    rw [h4, h5]
    have h6 := readBuffer_at (pre ++ [2, 0]) [] rest .BigEndian
    simp only [List.length_nil] at h6
    rw [h6, Res.bind]
    simp [encCap]
  | FourOctetASNumberSupport asn =>
    simp only [Capability.wfb, decide_eq_true_eq] at hc
    unfold Capability.read
    have h1 : pre ++ encCap (.FourOctetASNumberSupport asn) ++ rest =
        pre ++ 65 :: (8 :: (beBytes 8 asn ++ rest)) := by simp [encCap]
    rw [h1, u8read_at, Res.bind]
    have h2 : pre ++ 65 :: (8 :: (beBytes 8 asn ++ rest)) =
        (pre ++ [65]) ++ 8 :: (beBytes 8 asn ++ rest) := by simp
    have h3 : pre.length + 1 = (pre ++ [65]).length := by simp
    rw [h2, h3, u8read_at, Res.bind]
    have h4 : (pre ++ [65]) ++ 8 :: (beBytes 8 asn ++ rest) =
        (pre ++ [65, 8]) ++ beBytes 8 asn ++ rest := by simp
    have h5 : (pre ++ [65]).length + 1 = (pre ++ [65, 8]).length := by simp
    rw [h4, h5]
    have h6 := readBuffer_at (pre ++ [65, 8]) (beBytes 8 asn) rest .BigEndian
    rw [beBytes_length] at h6
    rw [h6, Res.bind]
    simp only [if_neg (by omega : ¬ (65 : Nat) = 1), if_neg (by omega : ¬ (65 : Nat) = 2),
      if_pos rfl]
    have h7 := numRead_at_lt [] [] 8 asn (by norm_num; omega)
    simp only [List.nil_append, List.append_nil, List.length_nil] at h7
    rw [h7, Res.bind]
    simp [encCap, beBytes_length]
  | EnhancedRouteRefresh =>
    unfold Capability.read
    have h1 : pre ++ encCap .EnhancedRouteRefresh ++ rest = pre ++ 70 :: (0 :: rest) := by
      simp [encCap]
    rw [h1, u8read_at, Res.bind]
    have h2 : pre ++ 70 :: (0 :: rest) = (pre ++ [70]) ++ 0 :: rest := by simp
    have h3 : pre.length + 1 = (pre ++ [70]).length := by simp
    rw [h2, h3, u8read_at, Res.bind]
    have h4 : (pre ++ [70]) ++ 0 :: rest = (pre ++ [70, 0]) ++ ([] : List Nat) ++ rest := by simp
    have h5 : (pre ++ [70]).length + 1 = (pre ++ [70, 0]).length := by simp
    rw [h4, h5]
    have h6 := readBuffer_at (pre ++ [70, 0]) [] rest .BigEndian
    simp only [List.length_nil] at h6
    rw [h6, Res.bind]
    simp [encCap]
  | LongLivedGracefulRestart =>
    unfold Capability.read
    have h1 : pre ++ encCap .LongLivedGracefulRestart ++ rest = pre ++ 71 :: (0 :: rest) := by
      simp [encCap]
    rw [h1, u8read_at, Res.bind]
    have h2 : pre ++ 71 :: (0 :: rest) = (pre ++ [71]) ++ 0 :: rest := by simp
    have h3 : pre.length + 1 = (pre ++ [71]).length := by simp
    rw [h2, h3, u8read_at, Res.bind]
    have h4 : (pre ++ [71]) ++ 0 :: rest = (pre ++ [71, 0]) ++ ([] : List Nat) ++ rest := by simp
    have h5 : (pre ++ [71]).length + 1 = (pre ++ [71, 0]).length := by simp
    rw [h4, h5]
    have h6 := readBuffer_at (pre ++ [71, 0]) [] rest .BigEndian
    simp only [List.length_nil] at h6
    rw [h6, Res.bind]
    simp [encCap]
  | MultiProtocolExtensions afi safi =>
    have hafi : ∃ av, afi.intoU16 = .ok av := by
      cases afi <;> simp [Capability.wfb] at hc <;> simp [AFI.intoU16]
    have hsafi : ∃ sv, safi.intoU8 = .ok sv := by
      cases safi <;> simp [Capability.wfb] at hc <;> simp [SAFI.intoU8]
    obtain ⟨av, hav⟩ := hafi
    obtain ⟨sv, hsv⟩ := hsafi
    have havlt := AFI.intoU16_lt hav
    have hsvlt := SAFI.intoU8_lt hsv
    have hsvm : sv % 256 = sv := Nat.mod_eq_of_lt hsvlt
    unfold Capability.read
    have h1 : pre ++ encCap (.MultiProtocolExtensions afi safi) ++ rest =
        pre ++ 1 :: (4 :: ((beBytes 2 av ++ [0, sv]) ++ rest)) := by
      simp [encCap, hav, hsv, hsvm]
    rw [h1, u8read_at, Res.bind]
    have h2 : pre ++ 1 :: (4 :: ((beBytes 2 av ++ [0, sv]) ++ rest)) =
        (pre ++ [1]) ++ 4 :: ((beBytes 2 av ++ [0, sv]) ++ rest) := by simp
    have h3 : pre.length + 1 = (pre ++ [1]).length := by simp
    rw [h2, h3, u8read_at, Res.bind]
    have h4 : (pre ++ [1]) ++ 4 :: ((beBytes 2 av ++ [0, sv]) ++ rest) =
        (pre ++ [1, 4]) ++ (beBytes 2 av ++ [0, sv]) ++ rest := by simp
    have h5 : (pre ++ [1]).length + 1 = (pre ++ [1, 4]).length := by simp
    rw [h4, h5]
    have h6 := readBuffer_at (pre ++ [1, 4]) (beBytes 2 av ++ [0, sv]) rest .BigEndian
    have h7 : (beBytes 2 av ++ [0, sv]).length = 4 := by simp [beBytes_length]
    rw [h7] at h6
    rw [h6, Res.bind, if_pos rfl]
    have h8 := numRead_at_lt [] [0, sv] 2 av (by norm_num; omega)
    simp only [List.nil_append, List.length_nil] at h8
    rw [h8, Res.bind]
    have h9 := u8read_at (beBytes 2 av) [sv] 0 .BigEndian
    have h10 : (0 : Nat) + 2 = (beBytes 2 av).length := by simp [beBytes_length]
    have h11 : beBytes 2 av ++ 0 :: [sv] = beBytes 2 av ++ [0, sv] := by simp
    rw [h11] at h9
    rw [h10, h9, Res.bind]
    have h12 := u8read_at (beBytes 2 av ++ [0]) [] sv .BigEndian
    have h13 : (beBytes 2 av).length + 1 = (beBytes 2 av ++ [0]).length := by simp
    have h14 : (beBytes 2 av ++ [0]) ++ sv :: [] = beBytes 2 av ++ [0, sv] := by simp
    rw [h14] at h12
    rw [h13, h12, Res.bind, AFI.fromU16_into hav, SAFI.fromU8_into hsv]
    simp [encCap, hav, hsv, hsvm, beBytes_length]
  | Unknown id value => simp [Capability.wfb] at hc

theorem Capability.read_unknown (id : Nat) (payload rest : List Nat) (pre : List Nat)
    (h1 : id ≠ 1) (h2 : id ≠ 2) (h65 : id ≠ 65) (h70 : id ≠ 70) (h71 : id ≠ 71) :
    Capability.read ⟨pre ++ (id :: payload.length :: payload) ++ rest, pre.length,
        .BigEndian⟩ =
      .ok (.Unknown id payload) ⟨pre ++ (id :: payload.length :: payload) ++ rest,
        pre.length + 2 + payload.length, .BigEndian⟩ := by
  unfold Capability.read
  have hs1 : pre ++ (id :: payload.length :: payload) ++ rest =
      pre ++ id :: (payload.length :: (payload ++ rest)) := by simp
  rw [hs1, u8read_at, Res.bind]
  have hs2 : pre ++ id :: (payload.length :: (payload ++ rest)) =
      (pre ++ [id]) ++ payload.length :: (payload ++ rest) := by simp
  have hs3 : pre.length + 1 = (pre ++ [id]).length := by simp
  rw [hs2, hs3, u8read_at, Res.bind]
  have hs4 : (pre ++ [id]) ++ payload.length :: (payload ++ rest) =
      (pre ++ [id, payload.length]) ++ payload ++ rest := by simp
  have hs5 : (pre ++ [id]).length + 1 = (pre ++ [id, payload.length]).length := by simp
  rw [hs4, hs5, readBuffer_at, Res.bind]
  rw [if_neg h1, if_neg h2, if_neg h65, if_neg h70, if_neg h71]
  simp
  try omega

theorem optParamRead_at (p : OptionalParameter) (hp : p.wfb = true)
    (pre rest : List Nat) :
    OptionalParameter.read ⟨pre ++ encOptParam p ++ rest, pre.length, .BigEndian⟩ =
      .ok p ⟨pre ++ encOptParam p ++ rest, pre.length + (encOptParam p).length,
        .BigEndian⟩ := by
  cases p with
  | Capabilities caps =>
    simp only [OptionalParameter.wfb, Bool.and_eq_true, List.all_eq_true,
      decide_eq_true_eq] at hp
    obtain ⟨hcaps, hlen⟩ := hp
    have hm : (caps.flatMap encCap).length % 256 = (caps.flatMap encCap).length :=
      Nat.mod_eq_of_lt (by omega)
    unfold OptionalParameter.read
    have h1 : pre ++ encOptParam (.Capabilities caps) ++ rest =
        pre ++ 2 :: ((caps.flatMap encCap).length :: (caps.flatMap encCap ++ rest)) := by
      simp only [encOptParam, hm, List.cons_append, List.append_assoc]
    rw [h1, u8read_at, Res.bind]
    have h2 : pre ++ 2 :: ((caps.flatMap encCap).length :: (caps.flatMap encCap ++ rest)) =
        (pre ++ [2]) ++ (caps.flatMap encCap).length :: (caps.flatMap encCap ++ rest) := by
      simp
    have h3 : pre.length + 1 = (pre ++ [2]).length := by simp
    rw [h2, h3, u8read_at, Res.bind]
    have h4 : (pre ++ [2]) ++ (caps.flatMap encCap).length :: (caps.flatMap encCap ++ rest) =
        (pre ++ [2, (caps.flatMap encCap).length]) ++ caps.flatMap encCap ++ rest := by simp
    have h5 : (pre ++ [2]).length + 1 = (pre ++ [2, (caps.flatMap encCap).length]).length := by
      simp
    rw [h4, h5, readBuffer_at, Res.bind, if_pos rfl]
    have hrem : (⟨caps.flatMap encCap, 0, ByteOrder.BigEndian⟩ : Buffer).remaining =
        (caps.flatMap encCap).length := by simp [Buffer.remaining]
    rw [hrem]
    have hloop := readWhileRemaining_flatMap Capability.read encCap caps
      (fun c hcm pre' rest' => capabilityRead_at c (hcaps c hcm) pre' rest')
      (fun c _ => encCap_pos c)
      ((caps.flatMap encCap).length) []
      (le_trans (length_le_flatMap encCap caps (fun c _ => encCap_pos c)) (le_refl _))
    simp only [List.nil_append, List.length_nil] at hloop
    rw [hloop, Res.bind]
    simp [encOptParam, hm]
    omega

theorem flatMap_length_const {α : Type} (f : α → List Nat) (k : Nat) (l : List α)
    (h : ∀ x ∈ l, (f x).length = k) : (l.flatMap f).length = k * l.length := by
  induction l with
  | nil => simp
  | cons a d ih =>
    have := h a (by simp)
    have := ih fun x hx => h x (by simp [hx])
    simp only [List.flatMap_cons, List.length_append, List.length_cons, Nat.mul_succ]
    omega

theorem encAttrValue_len_le (v : AttributeValue) (hv : v.wfb = true) :
    (encAttrValue v).length ≤ 255 := by
  cases v with
  | Origin origin => simp [encAttrValue]
  | ASPath path =>
    rcases path with values | ty2
    · simp only [AttributeValue.wfb, ASPathSegment.wfb, Bool.and_eq_true,
        decide_eq_true_eq] at hv
      have h4 := flatMap_length_const (beBytes 4) 4 values (fun x _ => beBytes_length 4 x)
      simp only [encAttrValue, encASPathSegment, List.length_cons, h4]
      omega
    · simp [AttributeValue.wfb, ASPathSegment.wfb] at hv
  | NextHop nextHop =>
    simp only [AttributeValue.wfb, Bool.and_eq_true, decide_eq_true_eq] at hv
    simp only [encAttrValue, List.length_map]
    omega
  | Communities communities =>
    simp only [AttributeValue.wfb, Bool.and_eq_true, decide_eq_true_eq] at hv
    have h6 := flatMap_length_const encCommunity 6 communities
      (fun x _ => by simp [encCommunity, beBytes_length])
    simp only [encAttrValue, h6]
    omega
  | LargeCommunities communities =>
    simp only [AttributeValue.wfb, Bool.and_eq_true, decide_eq_true_eq] at hv
    have h24 := flatMap_length_const encLargeCommunity 24 communities
      (fun x _ => by simp [encLargeCommunity, beBytes_length])
    simp only [encAttrValue, h24]
    omega
  | MPReachableNLRI afi safi nextHop nlri => simp [AttributeValue.wfb] at hv
  | MPUnreachableNLRI afi safi withdrawnRoutes => simp [AttributeValue.wfb] at hv

theorem attributeRead_at (a : Attribute) (ha : a.wfb = true) (pre rest : List Nat) :
    Attribute.read ⟨pre ++ encAttr a ++ rest, pre.length, .BigEndian⟩ =
      .ok a ⟨pre ++ encAttr a ++ rest, pre.length + (encAttr a).length, .BigEndian⟩ := by
  obtain ⟨ty, flags, value⟩ := a
  simp only [Attribute.wfb, Bool.and_eq_true, decide_eq_true_eq, beq_iff_eq] at ha
  obtain ⟨⟨⟨hbits, hnib⟩, hty⟩, hval⟩ := ha
  obtain ⟨bits⟩ := flags
  simp only at hbits hnib hty
  subst hty
  have hbm : bits % 256 = bits := Nat.mod_eq_of_lt hbits
  have hlm : (encAttrValue value).length % 256 = (encAttrValue value).length :=
    Nat.mod_eq_of_lt (by have := encAttrValue_len_le value hval; omega)
  unfold Attribute.read
  have h1 : pre ++ encAttr ⟨value.attrType, ⟨bits⟩, value⟩ ++ rest =
      pre ++ bits :: (value.attrType.discriminant ::
        ((encAttrValue value).length :: (encAttrValue value ++ rest))) := by
    simp only [encAttr, hbm, hlm, List.cons_append, List.append_assoc]
  rw [h1, u8read_at, Res.bind]
  have hfb : AttributeFlags.fromBits bits = some ⟨bits⟩ := by
    simp [AttributeFlags.fromBits, hnib]
  rw [hfb]
  dsimp only
  have h2 : pre ++ bits :: (value.attrType.discriminant ::
      ((encAttrValue value).length :: (encAttrValue value ++ rest))) =
      (pre ++ [bits]) ++ value.attrType.discriminant ::
        ((encAttrValue value).length :: (encAttrValue value ++ rest)) := by simp
  have h3 : pre.length + 1 = (pre ++ [bits]).length := by simp
  rw [h2, h3, u8read_at, Res.bind, AttributeType.fromRaw_discriminant]
  dsimp only
  have h4 : (pre ++ [bits]) ++ value.attrType.discriminant ::
      ((encAttrValue value).length :: (encAttrValue value ++ rest)) =
      (pre ++ [bits, value.attrType.discriminant]) ++
        (encAttrValue value).length :: (encAttrValue value ++ rest) := by simp
  have h5 : (pre ++ [bits]).length + 1 = (pre ++ [bits, value.attrType.discriminant]).length := by
    simp
  rw [h4, h5, u8read_at, Res.bind]
  have h6 : (pre ++ [bits, value.attrType.discriminant]) ++
      (encAttrValue value).length :: (encAttrValue value ++ rest) =
      (pre ++ [bits, value.attrType.discriminant, (encAttrValue value).length]) ++
        encAttrValue value ++ rest := by simp
  have h7 : (pre ++ [bits, value.attrType.discriminant]).length + 1 =
      (pre ++ [bits, value.attrType.discriminant, (encAttrValue value).length]).length := by simp
  rw [h6, h7, readBuffer_at, Res.bind]
  rcases hv2 : value with origin | path | nextHop | communities | communities | mp1 | mp2
  · simp only [AttributeValue.attrType]
    have h8 := u8read_at [] [] origin.toU8 .BigEndian
    simp only [List.nil_append, List.append_nil, List.length_nil] at h8
    have h9 : encAttrValue (.Origin origin) = [origin.toU8] := by simp [encAttrValue]
    rw [h9, h8, Res.bind, originFromU8_toU8]
    simp [encAttr, h9, hbm, hlm]
    try omega
  · rcases path with values | ty2
    · simp only [AttributeValue.attrType]
      have h9 : encAttrValue (.ASPath (.ASSequence values)) =
          encASPathSegment (.ASSequence values) := by simp [encAttrValue]
      rw [hv2] at hval
      have h8 := asPathSegmentRead_at values hval [] []
      simp only [List.nil_append, List.append_nil, List.length_nil] at h8
      rw [h9, h8, Res.bind]
      simp [encAttr, h9, hbm, hlm]
      try omega
    · rw [hv2] at hval
      simp [AttributeValue.wfb, ASPathSegment.wfb] at hval
  · simp only [AttributeValue.attrType]
    rw [hv2] at hval
    simp only [AttributeValue.wfb, Bool.and_eq_true, decide_eq_true_eq,
      List.all_eq_true] at hval
    have hmapnh : nextHop.map (· % 256) = nextHop :=
      map_mod_eq_self fun x hx => by have := hval.2 x hx; omega
    have h9 : encAttrValue (.NextHop nextHop) = nextHop := by simp [encAttrValue, hmapnh]
    have hlen9 : (⟨nextHop, 0, ByteOrder.BigEndian⟩ : Buffer).len = nextHop.length := by
      simp [Buffer.len]
    have h8 := readBytesVector_at [] nextHop [] .BigEndian
    simp only [List.nil_append, List.append_nil, List.length_nil] at h8
    rw [h9, hlen9, h8, Res.bind]
    simp [encAttr, h9, hbm, hlm]
    try omega
  · simp only [AttributeValue.attrType]
    rw [hv2] at hval
    simp only [AttributeValue.wfb, Bool.and_eq_true, decide_eq_true_eq,
      List.all_eq_true] at hval
    have h9 : encAttrValue (.Communities communities) = communities.flatMap encCommunity := by
      simp [encAttrValue]
    have hrem : (⟨communities.flatMap encCommunity, 0, ByteOrder.BigEndian⟩ : Buffer).remaining =
        (communities.flatMap encCommunity).length := by simp [Buffer.remaining]
    have hloop := readWhileRemaining_flatMap Community.read encCommunity communities
      (fun c hcm pre' rest' => communityRead_at c (hval.2 c hcm) pre' rest')
      (fun c _ => by simp [encCommunity, beBytes_length])
      ((communities.flatMap encCommunity).length) []
      (length_le_flatMap encCommunity communities
        (fun c _ => by simp [encCommunity, beBytes_length]))
    simp only [List.nil_append, List.length_nil] at hloop
    rw [h9, hrem, hloop, Res.bind]
    simp [encAttr, h9, hbm, hlm]
    try omega
  · simp only [AttributeValue.attrType]
    rw [hv2] at hval
    simp only [AttributeValue.wfb, Bool.and_eq_true, decide_eq_true_eq,
      List.all_eq_true] at hval
    have h9 : encAttrValue (.LargeCommunities communities) =
        communities.flatMap encLargeCommunity := by simp [encAttrValue]
    have hrem : (⟨communities.flatMap encLargeCommunity, 0, ByteOrder.BigEndian⟩ :
        Buffer).remaining = (communities.flatMap encLargeCommunity).length := by
      simp [Buffer.remaining]
    have hloop := readWhileRemaining_flatMap LargeCommunity.read encLargeCommunity communities
      (fun c hcm pre' rest' => largeCommunityRead_at c (hval.2 c hcm) pre' rest')
      (fun c _ => by simp [encLargeCommunity, beBytes_length])
      ((communities.flatMap encLargeCommunity).length) []
      (length_le_flatMap encLargeCommunity communities
        (fun c _ => by simp [encLargeCommunity, beBytes_length]))
    simp only [List.nil_append, List.length_nil] at hloop
    rw [h9, hrem, hloop, Res.bind]
    simp [encAttr, h9, hbm, hlm]
    try omega
  · rw [hv2] at hval
    simp [AttributeValue.wfb] at hval
  · rw [hv2] at hval
    simp [AttributeValue.wfb] at hval

theorem headerRead_ok (pre rest : List Nat) (L : Nat) (ty : PacketType)
    (hty : ty ≠ .Unexpected) (h19 : 19 ≤ L) (h4096 : L ≤ 4096)
    (hka : ty = .KeepAlive → L = 19) (hop : ty = .Open → 29 ≤ L)
    (hup : ty = .Update → 23 ≤ L) (hnot : ty = .Notification → 21 ≤ L)
    (hlen : L ≤ pre.length + 19 + rest.length) :
    BGPHeader.read ⟨pre ++ (List.replicate 16 255 ++ beBytes 2 L ++ [ty.toU8]) ++ rest,
        pre.length, .BigEndian⟩ =
      .ok ⟨List.replicate 16 255, L, ty⟩
        ⟨pre ++ (List.replicate 16 255 ++ beBytes 2 L ++ [ty.toU8]) ++ rest,
          pre.length + 19, .BigEndian⟩ := by
  unfold BGPHeader.read
  have h1 : pre ++ (List.replicate 16 255 ++ beBytes 2 L ++ [ty.toU8]) ++ rest =
      pre ++ List.replicate 16 255 ++ (beBytes 2 L ++ ([ty.toU8] ++ rest)) := by simp
  have hmark := readBytesVector_at pre (List.replicate 16 255)
    (beBytes 2 L ++ ([ty.toU8] ++ rest)) .BigEndian
  rw [List.length_replicate] at hmark
  rw [h1, hmark, Res.bind]
  have h2 : pre ++ List.replicate 16 255 ++ (beBytes 2 L ++ ([ty.toU8] ++ rest)) =
      (pre ++ List.replicate 16 255) ++ beBytes 2 L ++ ([ty.toU8] ++ rest) := by simp
  have h3 : pre.length + 16 = (pre ++ List.replicate 16 255).length := by simp
  rw [h2, h3, numRead_at_lt _ _ _ _ (by omega), Res.bind]
  have h4 : (pre ++ List.replicate 16 255) ++ beBytes 2 L ++ ([ty.toU8] ++ rest) =
      ((pre ++ List.replicate 16 255) ++ beBytes 2 L) ++ ty.toU8 :: rest := by simp
  have h5 : (pre ++ List.replicate 16 255).length + 2 =
      ((pre ++ List.replicate 16 255) ++ beBytes 2 L).length := by simp [beBytes_length]
  rw [h4, h5, u8read_at, Res.bind]
  unfold BGPHeader.validate
  dsimp only
  rw [packetTypeFromU8_toU8]
  split_ifs with c1 c2 c3 c4 c5 c6 c7
  · omega
  · exact absurd (hka c2.1) c2.2
  · have := hop c3.1
    omega
  · have := hup c4.1
    omega
  · have := hnot c5.1
    omega
  · simp [Buffer.len, beBytes_length] at c6
    omega
  · exact absurd rfl c7
  · simp [beBytes_length]
    try omega

theorem packet_write_routerefresh (l : List Nat) :
    Packet.write .RouteRefresh ⟨l, l.length, .BigEndian⟩ =
      .ok ⟨l ++ encPacket .RouteRefresh, (l ++ encPacket .RouteRefresh).length, .BigEndian⟩ := by
  simp only [Packet.write, bind, Except.bind, PacketType.fromPacket]
  rw [BGPHeader.write_byType_end]
  simp only [Buffer.len, Buffer.empty]
  rw [writeBuffer_endL _ _ _ (by intro x hx; simp [Buffer.empty] at hx)]
  simp [encPacket, encBody, PacketType.fromPacket]

theorem packetRead_keepalive :
    Packet.read ⟨encPacket .KeepAlive, 0, .BigEndian⟩ =
      .ok .KeepAlive ⟨encPacket .KeepAlive, (encPacket .KeepAlive).length, .BigEndian⟩ := by
  decide

theorem packetRead_routerefresh :
    Packet.read ⟨encPacket .RouteRefresh, 0, .BigEndian⟩ =
      .ok .RouteRefresh ⟨encPacket .RouteRefresh, (encPacket .RouteRefresh).length,
        .BigEndian⟩ := by
  decide

theorem packetRead_notification (ec : ErrorCode) (sub : Nat) (data : List Nat)
    (hp : (Packet.Notification ec sub data).wfb = true) :
    Packet.read ⟨encPacket (.Notification ec sub data), 0, .BigEndian⟩ =
      .ok (.Notification ec sub data)
        ⟨encPacket (.Notification ec sub data),
          (encPacket (.Notification ec sub data)).length, .BigEndian⟩ := by
  simp only [Packet.wfb, Bool.and_eq_true, List.all_eq_true, decide_eq_true_eq,
    beq_iff_eq] at hp
  have hcan : ErrorCode.fromU8 (ec.toU8 % 256) = ec := by tauto
  have hsub : sub < 256 := by tauto
  have hdata : ∀ x ∈ data, x < 256 := by tauto
  have hlen : 21 + data.length ≤ 4096 := by tauto
  have hmap : data.map (· % 256) = data := map_mod_eq_self fun x hx => hdata x hx
  have hsm : sub % 256 = sub := Nat.mod_eq_of_lt hsub
  have hbody : encBody (.Notification ec sub data) = ec.toU8 % 256 :: sub :: data := by
    simp [encBody, hmap, hsm]
  have hbl : (encBody (.Notification ec sub data)).length = 2 + data.length := by
    simp [hbody]
    omega
  have hblm : (encBody (.Notification ec sub data)).length % 65536 =
      (encBody (.Notification ec sub data)).length := Nat.mod_eq_of_lt (by omega)
  unfold Packet.read
  have hshape : encPacket (.Notification ec sub data) =
      (List.replicate 16 255 ++
        beBytes 2 ((encBody (.Notification ec sub data)).length + 19) ++
        [PacketType.toU8 .Notification]) ++ encBody (.Notification ec sub data) := by
    simp [encPacket, hblm, PacketType.fromPacket]
  rw [hshape]
  have hh := headerRead_ok [] (encBody (.Notification ec sub data))
    ((encBody (.Notification ec sub data)).length + 19) .Notification
    (by simp) (by omega) (by omega) (by simp) (by simp) (by simp) (fun _ => by omega)
    (by simp; omega)
  simp only [List.length_nil, List.nil_append] at hh
  rw [hh, Res.bind]
  dsimp only
  have hsub19 : (encBody (.Notification ec sub data)).length + 19 - 19 =
      (encBody (.Notification ec sub data)).length := by omega
  rw [hsub19]
  have hhl : (0 : Nat) + 19 =
      (List.replicate 16 255 ++ beBytes 2 ((encBody (.Notification ec sub data)).length + 19) ++
        [PacketType.toU8 .Notification]).length := by simp [beBytes_length]
  have hrb := readBuffer_at
    (List.replicate 16 255 ++ beBytes 2 ((encBody (.Notification ec sub data)).length + 19) ++
      [PacketType.toU8 .Notification])
    (encBody (.Notification ec sub data)) [] .BigEndian
  simp only [List.append_nil] at hrb
  rw [hhl, hrb, Res.bind]
  have hb1 : encBody (.Notification ec sub data) =
      ([] : List Nat) ++ (ec.toU8 % 256) :: (sub :: data) := by simp [hbody]
  conv in Buffer.mk (encBody (.Notification ec sub data)) 0 .BigEndian =>
    rw [show (0 : Nat) = ([] : List Nat).length from rfl, hb1]
  rw [u8read_at, Res.bind]
  have hb2 : ([] : List Nat) ++ (ec.toU8 % 256) :: (sub :: data) =
      [ec.toU8 % 256] ++ sub :: data := by simp
  have hb3 : ([] : List Nat).length + 1 = [ec.toU8 % 256].length := by simp
  rw [hb2, hb3, u8read_at, Res.bind]
  have hsub21 : (encBody (.Notification ec sub data)).length + 19 - 21 = data.length := by
    rw [hbl]; omega
  rw [hsub21]
  have hb4 : [ec.toU8 % 256] ++ sub :: data = ([ec.toU8 % 256] ++ [sub]) ++ data ++ [] := by
    simp
  have hb5 : [ec.toU8 % 256].length + 1 = ([ec.toU8 % 256] ++ [sub]).length := by simp
  rw [hb4, hb5, readBuffer_at, Res.bind, hcan]
  simp only [Res.withBuffer]
  simp [encPacket, hbody, hblm, beBytes_length]
  omega

theorem encOptParam_pos (p : OptionalParameter) : 0 < (encOptParam p).length := by
  cases p
  simp [encOptParam]

theorem encPrefix_pos (r : RoutePrefix) : 0 < (encPrefix r).length := by
  cases r
  simp [encPrefix]

theorem encAttr_pos (a : Attribute) : 0 < (encAttr a).length := by
  simp [encAttr]

theorem packetRead_open (v a ht ident : Nat) (ps : List OptionalParameter)
    (hp : (Packet.Open v a ht ident ps).wfb = true) :
    Packet.read ⟨encPacket (.Open v a ht ident ps), 0, .BigEndian⟩ =
      .ok (.Open v a ht ident ps)
        ⟨encPacket (.Open v a ht ident ps), (encPacket (.Open v a ht ident ps)).length,
          .BigEndian⟩ := by
  simp only [Packet.wfb, Bool.and_eq_true, Bool.or_eq_true, List.all_eq_true,
    decide_eq_true_eq, beq_iff_eq] at hp
  have hv : v < 256 := by tauto
  have ha : a < 2 ^ 16 := by tauto
  have hht : ht = 0 ∨ 3 ≤ ht := by tauto
  have hht2 : ht < 2 ^ 16 := by tauto
  have hident : ident < 2 ^ 32 := by tauto
  have hps : ∀ x ∈ ps, x.wfb = true := by tauto
  have hlen : 29 + (ps.flatMap encOptParam).length ≤ 4096 := by tauto
  have hvm : v % 256 = v := Nat.mod_eq_of_lt hv
  have hbody : encBody (.Open v a ht ident ps) =
      v :: (beBytes 2 a ++ beBytes 2 ht ++ beBytes 4 ident ++
        (ps.flatMap encOptParam).length % 256 :: ps.flatMap encOptParam) := by
    simp [encBody, hvm]
  have hbl : (encBody (.Open v a ht ident ps)).length =
      10 + (ps.flatMap encOptParam).length := by
    simp [hbody, beBytes_length]
    omega
  have hblm : (encBody (.Open v a ht ident ps)).length % 65536 =
      (encBody (.Open v a ht ident ps)).length := Nat.mod_eq_of_lt (by omega)
  unfold Packet.read
  have hshape : encPacket (.Open v a ht ident ps) =
      (List.replicate 16 255 ++
        beBytes 2 ((encBody (.Open v a ht ident ps)).length + 19) ++
        [PacketType.toU8 .Open]) ++ encBody (.Open v a ht ident ps) := by
    simp [encPacket, hblm, PacketType.fromPacket]
  rw [hshape]
  have hh := headerRead_ok [] (encBody (.Open v a ht ident ps))
    ((encBody (.Open v a ht ident ps)).length + 19) .Open
    (by simp) (by omega) (by omega) (by simp) (fun _ => by omega) (by simp) (by simp)
    (by simp; omega)
  simp only [List.length_nil, List.nil_append] at hh
  rw [hh, Res.bind]
  dsimp only
  have hsub19 : (encBody (.Open v a ht ident ps)).length + 19 - 19 =
      (encBody (.Open v a ht ident ps)).length := by omega
  rw [hsub19]
  have hhl : (0 : Nat) + 19 =
      (List.replicate 16 255 ++ beBytes 2 ((encBody (.Open v a ht ident ps)).length + 19) ++
        [PacketType.toU8 .Open]).length := by simp [beBytes_length]
  have hrb := readBuffer_at
    (List.replicate 16 255 ++ beBytes 2 ((encBody (.Open v a ht ident ps)).length + 19) ++
      [PacketType.toU8 .Open])
    (encBody (.Open v a ht ident ps)) [] .BigEndian
  simp only [List.append_nil] at hrb
  rw [hhl, hrb, Res.bind]
  have hb1 : encBody (.Open v a ht ident ps) =
      ([] : List Nat) ++ v :: (beBytes 2 a ++ (beBytes 2 ht ++ (beBytes 4 ident ++
        (ps.flatMap encOptParam).length % 256 :: ps.flatMap encOptParam))) := by
    simp [hbody]
  conv in Buffer.mk (encBody (.Open v a ht ident ps)) 0 .BigEndian =>
    rw [show (0 : Nat) = ([] : List Nat).length from rfl, hb1]
  rw [u8read_at, Res.bind]
  have hb2 : ([] : List Nat) ++ v :: (beBytes 2 a ++ (beBytes 2 ht ++ (beBytes 4 ident ++
      (ps.flatMap encOptParam).length % 256 :: ps.flatMap encOptParam))) =
      [v] ++ beBytes 2 a ++ (beBytes 2 ht ++ (beBytes 4 ident ++
        (ps.flatMap encOptParam).length % 256 :: ps.flatMap encOptParam)) := by simp
  have hb3 : ([] : List Nat).length + 1 = [v].length := by simp
  rw [hb2, hb3, numRead_at_lt _ _ _ _ (by norm_num; omega), Res.bind]
  have hb4 : [v] ++ beBytes 2 a ++ (beBytes 2 ht ++ (beBytes 4 ident ++
      (ps.flatMap encOptParam).length % 256 :: ps.flatMap encOptParam)) =
      ([v] ++ beBytes 2 a) ++ beBytes 2 ht ++ (beBytes 4 ident ++
        (ps.flatMap encOptParam).length % 256 :: ps.flatMap encOptParam) := by simp
  have hb5 : [v].length + 2 = ([v] ++ beBytes 2 a).length := by simp [beBytes_length]
  rw [hb4, hb5, numRead_at_lt _ _ _ _ (by norm_num; omega), Res.bind]
  have hb6 : ([v] ++ beBytes 2 a) ++ beBytes 2 ht ++ (beBytes 4 ident ++
      (ps.flatMap encOptParam).length % 256 :: ps.flatMap encOptParam) =
      ([v] ++ beBytes 2 a ++ beBytes 2 ht) ++ beBytes 4 ident ++
        ((ps.flatMap encOptParam).length % 256 :: ps.flatMap encOptParam) := by simp
  have hb7 : ([v] ++ beBytes 2 a).length + 2 =
      ([v] ++ beBytes 2 a ++ beBytes 2 ht).length := by simp [beBytes_length]
  rw [hb6, hb7, numRead_at_lt _ _ _ _ (by norm_num; omega), Res.bind]
  have hb8 : ([v] ++ beBytes 2 a ++ beBytes 2 ht) ++ beBytes 4 ident ++
      ((ps.flatMap encOptParam).length % 256 :: ps.flatMap encOptParam) =
      ([v] ++ beBytes 2 a ++ beBytes 2 ht ++ beBytes 4 ident) ++
        (ps.flatMap encOptParam).length % 256 :: ps.flatMap encOptParam := by simp
  have hb9 : ([v] ++ beBytes 2 a ++ beBytes 2 ht).length + 4 =
      ([v] ++ beBytes 2 a ++ beBytes 2 ht ++ beBytes 4 ident).length := by
    simp [beBytes_length]
  rw [hb8, hb9, u8read_at, Res.bind]
  have hb10 : ([v] ++ beBytes 2 a ++ beBytes 2 ht ++ beBytes 4 ident) ++
      (ps.flatMap encOptParam).length % 256 :: ps.flatMap encOptParam =
      ([v] ++ beBytes 2 a ++ beBytes 2 ht ++ beBytes 4 ident ++
        [(ps.flatMap encOptParam).length % 256]) ++ ps.flatMap encOptParam := by simp
  have hb11 : ([v] ++ beBytes 2 a ++ beBytes 2 ht ++ beBytes 4 ident).length + 1 =
      ([v] ++ beBytes 2 a ++ beBytes 2 ht ++ beBytes 4 ident ++
        [(ps.flatMap encOptParam).length % 256]).length := by
    simp [beBytes_length]
  rw [hb10, hb11]
  have hrem : (⟨([v] ++ beBytes 2 a ++ beBytes 2 ht ++ beBytes 4 ident ++
      [(ps.flatMap encOptParam).length % 256]) ++ ps.flatMap encOptParam,
      ([v] ++ beBytes 2 a ++ beBytes 2 ht ++ beBytes 4 ident ++
        [(ps.flatMap encOptParam).length % 256]).length, ByteOrder.BigEndian⟩ :
      Buffer).remaining = (ps.flatMap encOptParam).length := by
    simp [Buffer.remaining, beBytes_length]
    omega
  rw [hrem]
  have hloop := readWhileRemaining_flatMap OptionalParameter.read encOptParam ps
    (fun q hq pre' rest' => optParamRead_at q (hps q hq) pre' rest')
    (fun q _ => encOptParam_pos q)
    ((ps.flatMap encOptParam).length)
    ([v] ++ beBytes 2 a ++ beBytes 2 ht ++ beBytes 4 ident ++
      [(ps.flatMap encOptParam).length % 256])
    (length_le_flatMap encOptParam ps (fun q _ => encOptParam_pos q))
  rw [hloop, Res.bind]
  rw [if_neg (show ¬ (ht ≠ 0 ∧ ht < 3) from fun h => by rcases hht with h0 | h3 <;> omega)]
  simp only [Res.withBuffer]
  simp [encPacket, hbody, hblm, beBytes_length]
  omega

theorem packetRead_update (wr nl : List RoutePrefix) (attrs : List Attribute)
    (hp : (Packet.Update wr nl attrs).wfb = true) :
    Packet.read ⟨encPacket (.Update wr nl attrs), 0, .BigEndian⟩ =
      .ok (.Update wr nl attrs)
        ⟨encPacket (.Update wr nl attrs), (encPacket (.Update wr nl attrs)).length,
          .BigEndian⟩ := by
  simp only [Packet.wfb, Bool.and_eq_true, List.all_eq_true, decide_eq_true_eq] at hp
  have hwr : ∀ x ∈ wr, x.wfb = true := by tauto
  have hnl : ∀ x ∈ nl, x.wfb = true := by tauto
  have hattrs : ∀ x ∈ attrs, x.wfb = true := by tauto
  have hlen : 25 + (wr.flatMap encPrefix).length + (attrs.flatMap encAttr).length +
      (nl.flatMap encPrefix).length ≤ 4096 := by tauto
  have hW : (wr.flatMap encPrefix).length < 256 ^ 2 :=
    lt_of_lt_of_eq (show (wr.flatMap encPrefix).length < 65536 by omega) (by norm_num)
  have hA : (attrs.flatMap encAttr).length < 256 ^ 2 :=
    lt_of_lt_of_eq (show (attrs.flatMap encAttr).length < 65536 by omega) (by norm_num)
  have hN : (nl.flatMap encPrefix).length < 256 ^ 2 :=
    lt_of_lt_of_eq (show (nl.flatMap encPrefix).length < 65536 by omega) (by norm_num)
  have hbody : encBody (.Update wr nl attrs) =
      beBytes 2 (wr.flatMap encPrefix).length ++ (wr.flatMap encPrefix ++
        (beBytes 2 (attrs.flatMap encAttr).length ++ (attrs.flatMap encAttr ++
          (beBytes 2 (nl.flatMap encPrefix).length ++ nl.flatMap encPrefix)))) := by
    simp [encBody]
  have hbl : (encBody (.Update wr nl attrs)).length =
      6 + (wr.flatMap encPrefix).length + (attrs.flatMap encAttr).length +
        (nl.flatMap encPrefix).length := by
    simp [hbody, beBytes_length]
    omega
  have hblm : (encBody (.Update wr nl attrs)).length % 65536 =
      (encBody (.Update wr nl attrs)).length := Nat.mod_eq_of_lt (by omega)
  unfold Packet.read
  have hshape : encPacket (.Update wr nl attrs) =
      (List.replicate 16 255 ++
        beBytes 2 ((encBody (.Update wr nl attrs)).length + 19) ++
        [PacketType.toU8 .Update]) ++ encBody (.Update wr nl attrs) := by
    simp [encPacket, hblm, PacketType.fromPacket]
  rw [hshape]
  have hh := headerRead_ok [] (encBody (.Update wr nl attrs))
    ((encBody (.Update wr nl attrs)).length + 19) .Update
    (by simp) (by omega) (by omega) (by simp) (by simp) (fun _ => by omega) (by simp)
    (by simp; omega)
  simp only [List.length_nil, List.nil_append] at hh
  rw [hh, Res.bind]
  dsimp only
  have hsub19 : (encBody (.Update wr nl attrs)).length + 19 - 19 =
      (encBody (.Update wr nl attrs)).length := by omega
  rw [hsub19]
  have hhl : (0 : Nat) + 19 =
      (List.replicate 16 255 ++ beBytes 2 ((encBody (.Update wr nl attrs)).length + 19) ++
        [PacketType.toU8 .Update]).length := by simp [beBytes_length]
  have hrb := readBuffer_at
    (List.replicate 16 255 ++ beBytes 2 ((encBody (.Update wr nl attrs)).length + 19) ++
      [PacketType.toU8 .Update])
    (encBody (.Update wr nl attrs)) [] .BigEndian
  simp only [List.append_nil] at hrb
  rw [hhl, hrb, Res.bind]
  have hb1 : encBody (.Update wr nl attrs) =
      ([] : List Nat) ++ beBytes 2 (wr.flatMap encPrefix).length ++ (wr.flatMap encPrefix ++
        (beBytes 2 (attrs.flatMap encAttr).length ++ (attrs.flatMap encAttr ++
          (beBytes 2 (nl.flatMap encPrefix).length ++ nl.flatMap encPrefix)))) := by
    simp [hbody]
  conv in Buffer.mk (encBody (.Update wr nl attrs)) 0 .BigEndian =>
    rw [show (0 : Nat) = ([] : List Nat).length from rfl, hb1]
  rw [numRead_at_lt _ _ _ _ hW, Res.bind]
  have hc1 : ([] : List Nat) ++ beBytes 2 (wr.flatMap encPrefix).length ++
      (wr.flatMap encPrefix ++ (beBytes 2 (attrs.flatMap encAttr).length ++
        (attrs.flatMap encAttr ++ (beBytes 2 (nl.flatMap encPrefix).length ++
          nl.flatMap encPrefix)))) =
      beBytes 2 (wr.flatMap encPrefix).length ++ wr.flatMap encPrefix ++
        (beBytes 2 (attrs.flatMap encAttr).length ++ (attrs.flatMap encAttr ++
          (beBytes 2 (nl.flatMap encPrefix).length ++ nl.flatMap encPrefix))) := by simp
  have hc2 : ([] : List Nat).length + 2 = (beBytes 2 (wr.flatMap encPrefix).length).length := by
    simp [beBytes_length]
  rw [hc1, hc2, readBuffer_at, Res.bind]
  have hrem1 : (⟨wr.flatMap encPrefix, 0, ByteOrder.BigEndian⟩ : Buffer).remaining =
      (wr.flatMap encPrefix).length := by simp [Buffer.remaining]
  rw [hrem1]
  have hloop1 := readWhileRemaining_flatMap RoutePrefix.read encPrefix wr
    (fun r hr pre' rest' => routePrefixRead_at r (hwr r hr) pre' rest')
    (fun r _ => encPrefix_pos r)
    ((wr.flatMap encPrefix).length) []
    (length_le_flatMap encPrefix wr (fun r _ => encPrefix_pos r))
  simp only [List.nil_append, List.length_nil] at hloop1
  rw [hloop1, Res.bind]
  have hc3 : beBytes 2 (wr.flatMap encPrefix).length ++ wr.flatMap encPrefix ++
      (beBytes 2 (attrs.flatMap encAttr).length ++ (attrs.flatMap encAttr ++
        (beBytes 2 (nl.flatMap encPrefix).length ++ nl.flatMap encPrefix))) =
      (beBytes 2 (wr.flatMap encPrefix).length ++ wr.flatMap encPrefix) ++
        beBytes 2 (attrs.flatMap encAttr).length ++ (attrs.flatMap encAttr ++
          (beBytes 2 (nl.flatMap encPrefix).length ++ nl.flatMap encPrefix)) := by simp
  have hc4 : (beBytes 2 (wr.flatMap encPrefix).length).length + (wr.flatMap encPrefix).length =
      (beBytes 2 (wr.flatMap encPrefix).length ++ wr.flatMap encPrefix).length := by
    simp [beBytes_length]
    try omega
  rw [hc3, hc4, numRead_at_lt _ _ _ _ hA, Res.bind]
  have hc5 : (beBytes 2 (wr.flatMap encPrefix).length ++ wr.flatMap encPrefix) ++
      beBytes 2 (attrs.flatMap encAttr).length ++ (attrs.flatMap encAttr ++
        (beBytes 2 (nl.flatMap encPrefix).length ++ nl.flatMap encPrefix)) =
      ((beBytes 2 (wr.flatMap encPrefix).length ++ wr.flatMap encPrefix) ++
        beBytes 2 (attrs.flatMap encAttr).length) ++ attrs.flatMap encAttr ++
        (beBytes 2 (nl.flatMap encPrefix).length ++ nl.flatMap encPrefix) := by simp
  have hc6 : (beBytes 2 (wr.flatMap encPrefix).length ++ wr.flatMap encPrefix).length + 2 =
      ((beBytes 2 (wr.flatMap encPrefix).length ++ wr.flatMap encPrefix) ++
        beBytes 2 (attrs.flatMap encAttr).length).length := by
    simp [beBytes_length]
    try omega
  rw [hc5, hc6, readBuffer_at, Res.bind]
  have hrem2 : (⟨attrs.flatMap encAttr, 0, ByteOrder.BigEndian⟩ : Buffer).remaining =
      (attrs.flatMap encAttr).length := by simp [Buffer.remaining]
  rw [hrem2]
  have hloop2 := readWhileRemaining_flatMap Attribute.read encAttr attrs
    (fun x hx pre' rest' => attributeRead_at x (hattrs x hx) pre' rest')
    (fun x _ => encAttr_pos x)
    ((attrs.flatMap encAttr).length) []
    (length_le_flatMap encAttr attrs (fun x _ => encAttr_pos x))
  simp only [List.nil_append, List.length_nil] at hloop2
  rw [hloop2, Res.bind]
  have hc7 : ((beBytes 2 (wr.flatMap encPrefix).length ++ wr.flatMap encPrefix) ++
      beBytes 2 (attrs.flatMap encAttr).length) ++ attrs.flatMap encAttr ++
      (beBytes 2 (nl.flatMap encPrefix).length ++ nl.flatMap encPrefix) =
      (((beBytes 2 (wr.flatMap encPrefix).length ++ wr.flatMap encPrefix) ++
        beBytes 2 (attrs.flatMap encAttr).length) ++ attrs.flatMap encAttr) ++
        beBytes 2 (nl.flatMap encPrefix).length ++ nl.flatMap encPrefix := by simp
  have hc8 : (((beBytes 2 (wr.flatMap encPrefix).length ++ wr.flatMap encPrefix) ++
      beBytes 2 (attrs.flatMap encAttr).length)).length + (attrs.flatMap encAttr).length =
      ((((beBytes 2 (wr.flatMap encPrefix).length ++ wr.flatMap encPrefix) ++
        beBytes 2 (attrs.flatMap encAttr).length)) ++ attrs.flatMap encAttr).length := by
    simp
    try omega
  rw [hc7, hc8, numRead_at_lt _ _ _ _ hN, Res.bind]
  have hc9 : (((beBytes 2 (wr.flatMap encPrefix).length ++ wr.flatMap encPrefix) ++
      beBytes 2 (attrs.flatMap encAttr).length) ++ attrs.flatMap encAttr) ++
      beBytes 2 (nl.flatMap encPrefix).length ++ nl.flatMap encPrefix =
      ((((beBytes 2 (wr.flatMap encPrefix).length ++ wr.flatMap encPrefix) ++
        beBytes 2 (attrs.flatMap encAttr).length) ++ attrs.flatMap encAttr) ++
        beBytes 2 (nl.flatMap encPrefix).length) ++ nl.flatMap encPrefix ++ [] := by simp
  have hc10 : ((((beBytes 2 (wr.flatMap encPrefix).length ++ wr.flatMap encPrefix) ++
      beBytes 2 (attrs.flatMap encAttr).length) ++ attrs.flatMap encAttr)).length + 2 =
      (((((beBytes 2 (wr.flatMap encPrefix).length ++ wr.flatMap encPrefix) ++
        beBytes 2 (attrs.flatMap encAttr).length) ++ attrs.flatMap encAttr) ++
        beBytes 2 (nl.flatMap encPrefix).length)).length := by
    simp [beBytes_length]
    try omega
  rw [hc9, hc10, readBuffer_at, Res.bind]
  have hrem3 : (⟨nl.flatMap encPrefix, 0, ByteOrder.BigEndian⟩ : Buffer).remaining =
      (nl.flatMap encPrefix).length := by simp [Buffer.remaining]
  rw [hrem3]
  have hloop3 := readWhileRemaining_flatMap RoutePrefix.read encPrefix nl
    (fun r hr pre' rest' => routePrefixRead_at r (hnl r hr) pre' rest')
    (fun r _ => encPrefix_pos r)
    ((nl.flatMap encPrefix).length) []
    (length_le_flatMap encPrefix nl (fun r _ => encPrefix_pos r))
  simp only [List.nil_append, List.length_nil] at hloop3
  rw [hloop3, Res.bind]
  simp only [Res.withBuffer]
  simp [encPacket, hbody, hblm, beBytes_length]
  omega

theorem beBytes2_pair (hi lo : Nat) (hhi : hi < 256) (hlo : lo < 256) :
    beBytes 2 (256 * hi + lo) = [hi, lo] := by
  simp [beBytes]
  constructor <;> omega

theorem headerRead_fields (pre marker rest : List Nat) (hm : marker.length = 16)
    (hi lo ty : Nat) (hhi : hi < 256) (hlo : lo < 256) :
    BGPHeader.read ⟨pre ++ (marker ++ [hi, lo, ty]) ++ rest, pre.length, .BigEndian⟩ =
      BGPHeader.validate ⟨marker, 256 * hi + lo, PacketType.fromU8 ty⟩
        ⟨pre ++ (marker ++ [hi, lo, ty]) ++ rest, pre.length + 19, .BigEndian⟩ := by
  unfold BGPHeader.read
  have h1 : pre ++ (marker ++ [hi, lo, ty]) ++ rest =
      pre ++ marker ++ ([hi, lo] ++ (ty :: rest)) := by simp
  have hmark := readBytesVector_at pre marker ([hi, lo] ++ (ty :: rest)) .BigEndian
  rw [hm] at hmark
  rw [h1, hmark, Res.bind]
  have h2 : pre ++ marker ++ ([hi, lo] ++ (ty :: rest)) =
      (pre ++ marker) ++ beBytes 2 (256 * hi + lo) ++ (ty :: rest) := by
    simp [beBytes2_pair hi lo hhi hlo]
  have h3 : pre.length + 16 = (pre ++ marker).length := by simp [hm]
  rw [h2, h3, numRead_at_lt _ _ _ _
    (lt_of_lt_of_eq (show 256 * hi + lo < 65536 by omega) (by norm_num)), Res.bind]
  have h4 : (pre ++ marker) ++ beBytes 2 (256 * hi + lo) ++ (ty :: rest) =
      ((pre ++ marker) ++ beBytes 2 (256 * hi + lo)) ++ ty :: rest := by simp
  have h5 : (pre ++ marker).length + 2 =
      ((pre ++ marker) ++ beBytes 2 (256 * hi + lo)).length := by
    simp [beBytes_length]
    omega
  rw [h4, h5, u8read_at, Res.bind]
  congr 1
  simp [hm, beBytes_length, beBytes2_pair hi lo hhi hlo]
  try omega

/-! Inversion lemmas: a successful read leaves the bytes unchanged and advances the
position by exactly the bytes it consumed. -/

theorem Res.bind_ok_inv {α β : Type} {r : Res α} {f : α → Buffer → Res β} {v : β}
    {b' : Buffer} (h : r.bind f = .ok v b') :
    ∃ a bm, r = .ok a bm ∧ f a bm = .ok v b' := by
  cases r with
  | ok a bm => exact ⟨a, bm, rfl, h⟩
  | fail e => simp [Res.bind] at h
  | crash k => simp [Res.bind] at h

theorem Res.withBuffer_ok_inv {α : Type} {buf : Buffer} {r : Res α} {v : α} {b' : Buffer}
    (h : Res.withBuffer buf r = .ok v b') : b' = buf := by
  cases r with
  | ok a bb =>
    injection h with h1 h2
    exact h2.symm
  | fail e => simp [Res.withBuffer] at h
  | crash k => simp [Res.withBuffer] at h

theorem u8read_ok_inv {b : Buffer} {x : Nat} {b' : Buffer} (h : u8read b = .ok x b') :
    b'.bytes = b.bytes ∧ b'.position = b.position + 1 ∧ b'.order = b.order := by
  unfold u8read at h
  split at h
  · simp at h
  · injection h with h1 h2
    rw [← h2]
    exact ⟨rfl, rfl, rfl⟩

theorem readU8s_ok_inv : ∀ {n : Nat} {b : Buffer} {xs : List Nat} {b' : Buffer},
    readU8s n b = .ok xs b' →
    b'.bytes = b.bytes ∧ b'.position = b.position + n ∧ b'.order = b.order := by
  intro n
  induction n with
  | zero =>
    intro b xs b' h
    injection h with h1 h2
    rw [← h2]
    exact ⟨rfl, rfl, rfl⟩
  | succ k ih =>
    intro b xs b' h
    rw [readU8s] at h
    obtain ⟨x, b1, hx, h⟩ := Res.bind_ok_inv h
    obtain ⟨ys, b2, hys, h⟩ := Res.bind_ok_inv h
    obtain ⟨hxb, hxp, hxo⟩ := u8read_ok_inv hx
    obtain ⟨hyb, hyp, hyo⟩ := ih hys
    injection h with h1 h2
    rw [← h2]
    refine ⟨by rw [hyb, hxb], by rw [hyp, hxp]; omega, by rw [hyo, hxo]⟩

theorem readBytesVector_ok_inv {b : Buffer} {n : Nat} {xs : List Nat} {b' : Buffer}
    (h : b.readBytesVector n = .ok xs b') :
    b'.bytes = b.bytes ∧ b'.position = b.position + n ∧ b'.order = b.order := by
  unfold Buffer.readBytesVector at h
  split at h
  · simp at h
  · exact readU8s_ok_inv h

theorem numRead_ok_inv {b : Buffer} {n v : Nat} {b' : Buffer}
    (h : numRead n b = .ok v b') :
    b'.bytes = b.bytes ∧ b'.position = b.position + n ∧ b'.order = b.order := by
  unfold numRead at h
  obtain ⟨xs, b1, hxs, h⟩ := Res.bind_ok_inv h
  injection h with h1 h2
  rw [← h2]
  exact readBytesVector_ok_inv hxs

theorem readBuffer_ok_inv {b : Buffer} {n : Nat} {ib : Buffer} {b' : Buffer}
    (h : b.readBuffer n = .ok ib b') :
    b'.bytes = b.bytes ∧ b'.position = b.position + n ∧ b'.order = b.order := by
  unfold Buffer.readBuffer at h
  obtain ⟨xs, b1, hxs, h⟩ := Res.bind_ok_inv h
  injection h with h1 h2
  rw [← h2]
  exact readBytesVector_ok_inv hxs

theorem headerRead_ok_inv {b : Buffer} {hd : BGPHeader} {b' : Buffer}
    (h : BGPHeader.read b = .ok hd b') :
    b'.bytes = b.bytes ∧ b'.position = b.position + 19 ∧ 19 ≤ hd.length := by
  unfold BGPHeader.read at h
  obtain ⟨marker, b1, hmark, h⟩ := Res.bind_ok_inv h
  obtain ⟨length, b2, hlen, h⟩ := Res.bind_ok_inv h
  obtain ⟨tyByte, b3, hty, h⟩ := Res.bind_ok_inv h
  obtain ⟨h1b, h1p, h1o⟩ := readBytesVector_ok_inv hmark
  obtain ⟨h2b, h2p, h2o⟩ := numRead_ok_inv hlen
  obtain ⟨h3b, h3p, h3o⟩ := u8read_ok_inv hty
  unfold BGPHeader.validate at h
  split at h
  · simp at h
  split at h
  · simp at h
  split at h
  · simp at h
  split at h
  · simp at h
  split at h
  · simp at h
  split at h
  · simp at h
  split at h
  · simp at h
  split at h
  · simp at h
  injection h with h4 h5
  rw [← h5, ← h4]
  refine ⟨by rw [h3b, h2b, h1b], by rw [h3p, h2p, h1p], by omega⟩

theorem openRead_if (v a ht ident : Nat) (ps : List OptionalParameter)
    (hv : v < 256) (ha : a < 2 ^ 16) (hht2 : ht < 2 ^ 16) (hident : ident < 2 ^ 32)
    (hps : ∀ x ∈ ps, x.wfb = true)
    (hlen : 29 + (ps.flatMap encOptParam).length ≤ 4096) :
    Packet.read ⟨encPacket (.Open v a ht ident ps), 0, .BigEndian⟩ =
      if ht ≠ 0 ∧ ht < 3 then
        .fail (.BGPError (BGPError.openError .UnacceptableHoldTime))
      else
        .ok (.Open v a ht ident ps)
          ⟨encPacket (.Open v a ht ident ps), (encPacket (.Open v a ht ident ps)).length,
            .BigEndian⟩ := by
  have hvm : v % 256 = v := Nat.mod_eq_of_lt hv
  have hbody : encBody (.Open v a ht ident ps) =
      v :: (beBytes 2 a ++ beBytes 2 ht ++ beBytes 4 ident ++
        (ps.flatMap encOptParam).length % 256 :: ps.flatMap encOptParam) := by
    simp [encBody, hvm]
  have hbl : (encBody (.Open v a ht ident ps)).length =
      10 + (ps.flatMap encOptParam).length := by
    simp [hbody, beBytes_length]
    omega
  have hblm : (encBody (.Open v a ht ident ps)).length % 65536 =
      (encBody (.Open v a ht ident ps)).length := Nat.mod_eq_of_lt (by omega)
  unfold Packet.read
  have hshape : encPacket (.Open v a ht ident ps) =
      (List.replicate 16 255 ++
        beBytes 2 ((encBody (.Open v a ht ident ps)).length + 19) ++
        [PacketType.toU8 .Open]) ++ encBody (.Open v a ht ident ps) := by
    simp [encPacket, hblm, PacketType.fromPacket]
  rw [hshape]
  have hh := headerRead_ok [] (encBody (.Open v a ht ident ps))
    ((encBody (.Open v a ht ident ps)).length + 19) .Open
    (by simp) (by omega) (by omega) (by simp) (fun _ => by omega) (by simp) (by simp)
    (by simp; omega)
  simp only [List.length_nil, List.nil_append] at hh
  rw [hh, Res.bind]
  dsimp only
  have hsub19 : (encBody (.Open v a ht ident ps)).length + 19 - 19 =
      (encBody (.Open v a ht ident ps)).length := by omega
  rw [hsub19]
  have hhl : (0 : Nat) + 19 =
      (List.replicate 16 255 ++ beBytes 2 ((encBody (.Open v a ht ident ps)).length + 19) ++
        [PacketType.toU8 .Open]).length := by simp [beBytes_length]
  have hrb := readBuffer_at
    (List.replicate 16 255 ++ beBytes 2 ((encBody (.Open v a ht ident ps)).length + 19) ++
      [PacketType.toU8 .Open])
    (encBody (.Open v a ht ident ps)) [] .BigEndian
  simp only [List.append_nil] at hrb
  rw [hhl, hrb, Res.bind]
  have hb1 : encBody (.Open v a ht ident ps) =
      ([] : List Nat) ++ v :: (beBytes 2 a ++ (beBytes 2 ht ++ (beBytes 4 ident ++
        (ps.flatMap encOptParam).length % 256 :: ps.flatMap encOptParam))) := by
    simp [hbody]
  conv in Buffer.mk (encBody (.Open v a ht ident ps)) 0 .BigEndian =>
    rw [show (0 : Nat) = ([] : List Nat).length from rfl, hb1]
  rw [u8read_at, Res.bind]
  have hb2 : ([] : List Nat) ++ v :: (beBytes 2 a ++ (beBytes 2 ht ++ (beBytes 4 ident ++
      (ps.flatMap encOptParam).length % 256 :: ps.flatMap encOptParam))) =
      [v] ++ beBytes 2 a ++ (beBytes 2 ht ++ (beBytes 4 ident ++
        (ps.flatMap encOptParam).length % 256 :: ps.flatMap encOptParam)) := by simp
  have hb3 : ([] : List Nat).length + 1 = [v].length := by simp
  rw [hb2, hb3, numRead_at_lt _ _ _ _ (by norm_num; omega), Res.bind]
  have hb4 : [v] ++ beBytes 2 a ++ (beBytes 2 ht ++ (beBytes 4 ident ++
      (ps.flatMap encOptParam).length % 256 :: ps.flatMap encOptParam)) =
      ([v] ++ beBytes 2 a) ++ beBytes 2 ht ++ (beBytes 4 ident ++
        (ps.flatMap encOptParam).length % 256 :: ps.flatMap encOptParam) := by simp
  have hb5 : [v].length + 2 = ([v] ++ beBytes 2 a).length := by simp [beBytes_length]
  rw [hb4, hb5, numRead_at_lt _ _ _ _ (by norm_num; omega), Res.bind]
  have hb6 : ([v] ++ beBytes 2 a) ++ beBytes 2 ht ++ (beBytes 4 ident ++
      (ps.flatMap encOptParam).length % 256 :: ps.flatMap encOptParam) =
      ([v] ++ beBytes 2 a ++ beBytes 2 ht) ++ beBytes 4 ident ++
        ((ps.flatMap encOptParam).length % 256 :: ps.flatMap encOptParam) := by simp
  have hb7 : ([v] ++ beBytes 2 a).length + 2 =
      ([v] ++ beBytes 2 a ++ beBytes 2 ht).length := by simp [beBytes_length]
  rw [hb6, hb7, numRead_at_lt _ _ _ _ (by norm_num; omega), Res.bind]
  have hb8 : ([v] ++ beBytes 2 a ++ beBytes 2 ht) ++ beBytes 4 ident ++
      ((ps.flatMap encOptParam).length % 256 :: ps.flatMap encOptParam) =
      ([v] ++ beBytes 2 a ++ beBytes 2 ht ++ beBytes 4 ident) ++
        (ps.flatMap encOptParam).length % 256 :: ps.flatMap encOptParam := by simp
  have hb9 : ([v] ++ beBytes 2 a ++ beBytes 2 ht).length + 4 =
      ([v] ++ beBytes 2 a ++ beBytes 2 ht ++ beBytes 4 ident).length := by
    simp [beBytes_length]
  rw [hb8, hb9, u8read_at, Res.bind]
  have hb10 : ([v] ++ beBytes 2 a ++ beBytes 2 ht ++ beBytes 4 ident) ++
      (ps.flatMap encOptParam).length % 256 :: ps.flatMap encOptParam =
      ([v] ++ beBytes 2 a ++ beBytes 2 ht ++ beBytes 4 ident ++
        [(ps.flatMap encOptParam).length % 256]) ++ ps.flatMap encOptParam := by simp
  have hb11 : ([v] ++ beBytes 2 a ++ beBytes 2 ht ++ beBytes 4 ident).length + 1 =
      ([v] ++ beBytes 2 a ++ beBytes 2 ht ++ beBytes 4 ident ++
        [(ps.flatMap encOptParam).length % 256]).length := by
    simp [beBytes_length]
  rw [hb10, hb11]
  have hrem : (⟨([v] ++ beBytes 2 a ++ beBytes 2 ht ++ beBytes 4 ident ++
      [(ps.flatMap encOptParam).length % 256]) ++ ps.flatMap encOptParam,
      ([v] ++ beBytes 2 a ++ beBytes 2 ht ++ beBytes 4 ident ++
        [(ps.flatMap encOptParam).length % 256]).length, ByteOrder.BigEndian⟩ :
      Buffer).remaining = (ps.flatMap encOptParam).length := by
    simp [Buffer.remaining, beBytes_length]
    omega
  rw [hrem]
  have hloop := readWhileRemaining_flatMap OptionalParameter.read encOptParam ps
    (fun q hq pre' rest' => optParamRead_at q (hps q hq) pre' rest')
    (fun q _ => encOptParam_pos q)
    ((ps.flatMap encOptParam).length)
    ([v] ++ beBytes 2 a ++ beBytes 2 ht ++ beBytes 4 ident ++
      [(ps.flatMap encOptParam).length % 256])
    (length_le_flatMap encOptParam ps (fun q _ => encOptParam_pos q))
  rw [hloop, Res.bind]
  split_ifs with hc
  · simp [Res.withBuffer]
  · simp only [Res.withBuffer]
    simp [encPacket, hbody, hblm, beBytes_length]
    omega

/-! The claims. -/

/-- C1 (corrected): decoding a capability with an unrecognized id and arbitrary payload
does yield Unknown(id, payload) with the payload preserved, but the decode→encode
round-trip claimed by the spec fails: Capability::write rejects every Unknown capability
with (OpenMessage, UnsupportedOptionalParameter) instead of re-emitting its bytes. -/
theorem c1_unknown_capability_decode_then_encode_fails (id : Nat) (payload : List Nat)
    (h1 : id ≠ 1) (h2 : id ≠ 2) (h65 : id ≠ 65) (h70 : id ≠ 70) (h71 : id ≠ 71) :
    Capability.read ⟨id :: payload.length :: payload, 0, .BigEndian⟩ =
      .ok (.Unknown id payload)
        ⟨id :: payload.length :: payload, 2 + payload.length, .BigEndian⟩ ∧
    ∀ b : Buffer, Capability.write (.Unknown id payload) b =
      .error (.BGPError (BGPError.openError .UnsupportedOptionalParameter)) := by
  constructor
  · have h := Capability.read_unknown id payload [] [] h1 h2 h65 h70 h71
    simpa using h
  · intro b
    exact Capability.write_unknown id payload b

/-- C1 witness: the unknown capability id 200 with payload [171, 205]. -/
theorem c1_witness :
    Capability.read ⟨200 :: [171, 205].length :: [171, 205], 0, .BigEndian⟩ =
      .ok (.Unknown 200 [171, 205])
        ⟨200 :: [171, 205].length :: [171, 205], 2 + [171, 205].length, .BigEndian⟩ ∧
    ∀ b : Buffer, Capability.write (.Unknown 200 [171, 205]) b =
      .error (.BGPError (BGPError.openError .UnsupportedOptionalParameter)) :=
  c1_unknown_capability_decode_then_encode_fails 200 [171, 205]
    (by decide) (by decide) (by decide) (by decide) (by decide)

/-- C1 counterexample to the claimed round-trip: the wire bytes [200, 2, 171, 205]
decode to Unknown 200 [171, 205], but encoding that value errors instead of reproducing
the bytes. -/
theorem c1_counterexample :
    Capability.read ⟨[200, 2, 171, 205], 0, .BigEndian⟩ =
      .ok (.Unknown 200 [171, 205]) ⟨[200, 2, 171, 205], 4, .BigEndian⟩ ∧
    Capability.write (.Unknown 200 [171, 205]) (Buffer.empty .BigEndian) =
      .error (.BGPError (BGPError.openError .UnsupportedOptionalParameter)) :=
  ⟨by decide, Capability.write_unknown 200 [171, 205] (Buffer.empty .BigEndian)⟩

/-- C2 (corrected): Packet::read after Packet::write is the identity on well-formed
messages (Packet.wfb), a class excluding in particular Notification values carrying a
non-canonical Unknown error code, Unknown capabilities, and multiprotocol attributes;
the spec's quantifier over every constructible message is too strong. -/
theorem c2_roundtrip_wf (m : Packet) (hm : m.wfb = true) :
    Packet.write m (Buffer.empty .BigEndian) =
      .ok ⟨encPacket m, (encPacket m).length, .BigEndian⟩ ∧
    Packet.read ⟨encPacket m, 0, .BigEndian⟩ =
      .ok m ⟨encPacket m, (encPacket m).length, .BigEndian⟩ := by
  constructor
  · rw [empty_big]
    cases m with
    | Open v a ht ident ps =>
      have hps : ∀ x ∈ ps, x.wfb = true := by
        simp only [Packet.wfb, Bool.and_eq_true, Bool.or_eq_true, List.all_eq_true,
          decide_eq_true_eq, beq_iff_eq] at hm
        tauto
      simpa using packet_write_open v a ht ident ps hps []
    | Update wr nl attrs =>
      have hattrs0 : ∀ x ∈ attrs, x.wfb = true := by
        simp only [Packet.wfb, Bool.and_eq_true, List.all_eq_true, decide_eq_true_eq] at hm
        tauto
      have hattrs : ∀ x ∈ attrs, x.value.wfb = true := by
        intro x hx
        have h := hattrs0 x hx
        simp only [Attribute.wfb, Bool.and_eq_true, decide_eq_true_eq, beq_iff_eq] at h
        tauto
      simpa using packet_write_update wr nl attrs hattrs []
    | Notification ec sub data =>
      simpa using packet_write_notification ec sub data []
    | KeepAlive => simpa using packet_write_keepalive []
    | RouteRefresh => simpa using packet_write_routerefresh []
  · cases m with
    | Open v a ht ident ps => exact packetRead_open v a ht ident ps hm
    | Update wr nl attrs => exact packetRead_update wr nl attrs hm
    | Notification ec sub data => exact packetRead_notification ec sub data hm
    | KeepAlive => exact packetRead_keepalive
    | RouteRefresh => exact packetRead_routerefresh

/-- C2 witness: the Update message of the repository's own test suite round-trips. -/
theorem c2_witness :
    Packet.write sampleUpdate (Buffer.empty .BigEndian) =
      .ok ⟨encPacket sampleUpdate, (encPacket sampleUpdate).length, .BigEndian⟩ ∧
    Packet.read ⟨encPacket sampleUpdate, 0, .BigEndian⟩ =
      .ok sampleUpdate
        ⟨encPacket sampleUpdate, (encPacket sampleUpdate).length, .BigEndian⟩ :=
  c2_roundtrip_wf sampleUpdate (by decide)

/-- C2 counterexample: the constructible message Notification (Unknown 1) 0 [] encodes
successfully, but its bytes decode to Notification MessageHeader 0 [], a different
value — the ErrorCode conversions collapse Unknown 1 onto the named code 1. -/
theorem c2_counterexample :
    Packet.write (.Notification (.Unknown 1) 0 []) (Buffer.empty .BigEndian) =
      .ok ⟨encPacket (.Notification (.Unknown 1) 0 []), 21, .BigEndian⟩ ∧
    Packet.read ⟨encPacket (.Notification (.Unknown 1) 0 []), 0, .BigEndian⟩ =
      .ok (.Notification .MessageHeader 0 [])
        ⟨encPacket (.Notification (.Unknown 1) 0 []), 21, .BigEndian⟩ ∧
    Packet.Notification (ErrorCode.Unknown 1) 0 [] ≠
      Packet.Notification .MessageHeader 0 [] :=
  ⟨rfl, by decide, by decide⟩

/-- C3: the claim that decoding never panics or invokes undefined behavior is FALSE in
the code. Attribute::read unwraps AttributeFlags::from_bits, so the flags byte 0x01
panics (UnwrapFailed), and it transmutes the raw type byte unchecked, so the undeclared
discriminant 11 is undefined behavior (InvalidTransmute); both on 3-byte inputs. -/
theorem c3_attribute_read_crashes :
    Attribute.read ⟨[1, 1, 0], 0, .BigEndian⟩ = .crash .UnwrapFailed ∧
    Attribute.read ⟨[0, 11, 0], 0, .BigEndian⟩ = .crash .InvalidTransmute :=
  ⟨by decide, by decide⟩

/-- C4: the claim that every attribute decode consumes exactly 3 header bytes plus the
declared value length from the parent cursor is FALSE in the code: the multiprotocol
arms read their fields from the parent cursor after the sub-cursor split. On the bytes
[0x80, 0x0F, 0x00, 0x00, 0x01, 0x01] — an MPUnreachableNLRI attribute with declared
value length 0 — decode succeeds having consumed 6 bytes, not 3 + 0 = 3. -/
theorem c4_mp_attribute_overconsumes :
    Attribute.read ⟨[128, 15, 0, 0, 1, 1], 0, .BigEndian⟩ =
      .ok ⟨.MPUnreachableNLRI, ⟨128⟩, .MPUnreachableNLRI .IPv4 .Unicast []⟩
        ⟨[128, 15, 0, 0, 1, 1], 6, .BigEndian⟩ ∧
    6 ≠ 3 + (0 : Nat) :=
  ⟨by decide, by decide⟩

/-- C5 (corrected): header decode rejects with (MessageHeader, BadMessageLength) when
the declared length exceeds the TOTAL byte count of the source buffer, not the bytes
actually available after the cursor position as the spec claims — the source compares
header.length against buffer.len(), which ignores the already-consumed prefix. -/
theorem c5_header_length_exceeds_total (pre marker rest : List Nat) (hi lo ty : Nat)
    (hm : marker.length = 16) (hhi : hi < 256) (hlo : lo < 256)
    (hgt : pre.length + 19 + rest.length < 256 * hi + lo) :
    BGPHeader.read ⟨pre ++ (marker ++ [hi, lo, ty]) ++ rest, pre.length, .BigEndian⟩ =
      .fail (.BGPError (BGPError.headerError .BadMessageLength)) := by
  rw [headerRead_fields pre marker rest hm hi lo ty hhi hlo]
  unfold BGPHeader.validate
  dsimp only
  split_ifs with c1 c2 c3 c4 c5 c6 c7 c8
  · rfl
  · rfl
  · rfl
  · rfl
  · rfl
  · rfl
  · exfalso
    simp [Buffer.len, hm] at c6
    omega
  · exfalso
    simp [Buffer.len, hm] at c6
    omega
  · exfalso
    simp [Buffer.len, hm] at c6
    omega

/-- C5 witness: a buffer whose header declares length 30 with only 19 total bytes. -/
theorem c5_witness :
    BGPHeader.read ⟨[] ++ (List.replicate 16 255 ++ [0, 30, 1]) ++ [],
        ([] : List Nat).length, .BigEndian⟩ =
      .fail (.BGPError (BGPError.headerError .BadMessageLength)) :=
  c5_header_length_exceeds_total [] (List.replicate 16 255) [] 0 30 1
    (by decide) (by decide) (by decide) (by decide)

/-- C5 counterexample to the spec's phrasing: at position 19 of a 38-byte buffer only 19
bytes remain, the header declares length 22 > 19, yet decode succeeds — the truncation
check uses the total buffer length 38, not the available remainder. -/
theorem c5_counterexample :
    (⟨List.replicate 19 0 ++ (List.replicate 16 255 ++ [0, 22, 3]), 19,
        .BigEndian⟩ : Buffer).remaining = 19 ∧
    BGPHeader.read ⟨List.replicate 19 0 ++ (List.replicate 16 255 ++ [0, 22, 3]), 19,
        .BigEndian⟩ =
      .ok ⟨List.replicate 16 255, 22, .Notification⟩
        ⟨List.replicate 19 0 ++ (List.replicate 16 255 ++ [0, 22, 3]), 38, .BigEndian⟩ :=
  ⟨by decide, by decide⟩

/-- C6: header decode rejects every header declaring length 18, and every header
declaring length 4097, with (MessageHeader, BadMessageLength); it accepts a 19-byte
KeepAlive header with all-ones marker; and it rejects every KeepAlive header whose
declared length differs from 19 with the same error. -/
theorem c6_header_length_bounds :
    (∀ (marker rest : List Nat) (ty : Nat), marker.length = 16 →
      BGPHeader.read ⟨marker ++ [0, 18, ty] ++ rest, 0, .BigEndian⟩ =
        .fail (.BGPError (BGPError.headerError .BadMessageLength))) ∧
    (∀ (marker rest : List Nat) (ty : Nat), marker.length = 16 →
      BGPHeader.read ⟨marker ++ [16, 1, ty] ++ rest, 0, .BigEndian⟩ =
        .fail (.BGPError (BGPError.headerError .BadMessageLength))) ∧
    (BGPHeader.read ⟨List.replicate 16 255 ++ [0, 19, 4], 0, .BigEndian⟩ =
      .ok ⟨List.replicate 16 255, 19, .KeepAlive⟩
        ⟨List.replicate 16 255 ++ [0, 19, 4], 19, .BigEndian⟩) ∧
    (∀ (marker rest : List Nat) (hi lo : Nat), marker.length = 16 → hi < 256 →
      lo < 256 → 256 * hi + lo ≠ 19 →
      BGPHeader.read ⟨marker ++ [hi, lo, 4] ++ rest, 0, .BigEndian⟩ =
        .fail (.BGPError (BGPError.headerError .BadMessageLength))) := by
  refine ⟨?_, ?_, by decide, ?_⟩
  · intro marker rest ty hm
    have hf := headerRead_fields [] marker rest hm 0 18 ty (by omega) (by omega)
    simp only [List.length_nil, List.nil_append] at hf
    rw [hf]
    simp [BGPHeader.validate]
  · intro marker rest ty hm
    have hf := headerRead_fields [] marker rest hm 16 1 ty (by omega) (by omega)
    simp only [List.length_nil, List.nil_append] at hf
    rw [hf]
    simp [BGPHeader.validate]
  · intro marker rest hi lo hm hhi hlo hne
    have hf := headerRead_fields [] marker rest hm hi lo 4 hhi hlo
    simp only [List.length_nil, List.nil_append] at hf
    rw [hf]
    unfold BGPHeader.validate
    dsimp only
    rw [show PacketType.fromU8 4 = PacketType.KeepAlive from rfl]
    by_cases hc1 : 256 * hi + lo < 19 ∨ 4096 < 256 * hi + lo
    · rw [if_pos hc1]
    · rw [if_neg hc1,
        if_pos (⟨rfl, hne⟩ : PacketType.KeepAlive = PacketType.KeepAlive ∧
          256 * hi + lo ≠ 19)]

/-- C6 witness: instantiations of the three universally quantified conjuncts at the
all-ones marker and empty tail: length 18 rejected, length 4097 rejected, and a
KeepAlive header with length 20 rejected. -/
theorem c6_witness :
    BGPHeader.read ⟨List.replicate 16 255 ++ [0, 18, 4] ++ [], 0, .BigEndian⟩ =
      .fail (.BGPError (BGPError.headerError .BadMessageLength)) ∧
    BGPHeader.read ⟨List.replicate 16 255 ++ [16, 1, 4] ++ [], 0, .BigEndian⟩ =
      .fail (.BGPError (BGPError.headerError .BadMessageLength)) ∧
    BGPHeader.read ⟨List.replicate 16 255 ++ [0, 20, 4] ++ [], 0, .BigEndian⟩ =
      .fail (.BGPError (BGPError.headerError .BadMessageLength)) :=
  ⟨c6_header_length_bounds.1 (List.replicate 16 255) [] 4 (by decide),
   c6_header_length_bounds.2.1 (List.replicate 16 255) [] 4 (by decide),
   c6_header_length_bounds.2.2.2 (List.replicate 16 255) [] 0 20 (by decide) (by decide)
     (by decide) (by decide)⟩

/-- C7: decoding an otherwise-valid Open message (in-range fields, no optional
parameters) succeeds when hold_time = 0 or hold_time ≥ 3 and fails with
(OpenMessage, UnacceptableHoldTime) when hold_time is 1 or 2 — the decoder enforces
hold_time = 0 ∨ hold_time ≥ 3. -/
theorem c7_hold_time_boundary (v a ht ident : Nat)
    (hv : v < 256) (ha : a < 2 ^ 16) (hht2 : ht < 2 ^ 16) (hident : ident < 2 ^ 32) :
    (ht = 0 ∨ 3 ≤ ht →
      Packet.read ⟨encPacket (.Open v a ht ident []), 0, .BigEndian⟩ =
        .ok (.Open v a ht ident [])
          ⟨encPacket (.Open v a ht ident []),
            (encPacket (.Open v a ht ident [])).length, .BigEndian⟩) ∧
    (ht = 1 ∨ ht = 2 →
      Packet.read ⟨encPacket (.Open v a ht ident []), 0, .BigEndian⟩ =
        .fail (.BGPError (BGPError.openError .UnacceptableHoldTime))) := by
  have h := openRead_if v a ht ident [] hv ha hht2 hident (by decide) (by decide)
  constructor
  · intro hok
    rw [h, if_neg (by omega)]
  · intro hfail
    rw [h, if_pos (by omega)]

/-- C7 witness: hold time 2 is rejected with UnacceptableHoldTime while hold time 240
(the test suite's value) is accepted. -/
theorem c7_witness :
    Packet.read ⟨encPacket (.Open 4 64600 2 127127127 []), 0, .BigEndian⟩ =
      .fail (.BGPError (BGPError.openError .UnacceptableHoldTime)) ∧
    Packet.read ⟨encPacket (.Open 4 64600 240 127127127 []), 0, .BigEndian⟩ =
      .ok (.Open 4 64600 240 127127127 [])
        ⟨encPacket (.Open 4 64600 240 127127127 []),
          (encPacket (.Open 4 64600 240 127127127 [])).length, .BigEndian⟩ :=
  ⟨(c7_hold_time_boundary 4 64600 2 127127127 (by decide) (by decide) (by decide)
      (by decide)).2 (Or.inr rfl),
   (c7_hold_time_boundary 4 64600 240 127127127 (by decide) (by decide) (by decide)
      (by decide)).1 (Or.inr (by decide))⟩

/-- C8: for every prefix bit length up to 32 and every byte-valued significant-byte
sequence of length ceil(bits / 8), RoutePrefix::write into an empty buffer produces the
wire image, and RoutePrefix::read of that image returns the original prefix. -/
theorem c8_prefix_roundtrip (bits : Nat) (bytes : List Nat) (hbits : bits ≤ 32)
    (hlen : bytes.length = (bits + 7) / 8) (hbytes : ∀ x ∈ bytes, x < 256) :
    RoutePrefix.write (.IPv4 bits bytes) (Buffer.empty .BigEndian) =
      ⟨encPrefix (.IPv4 bits bytes), (encPrefix (.IPv4 bits bytes)).length, .BigEndian⟩ ∧
    RoutePrefix.read ⟨encPrefix (.IPv4 bits bytes), 0, .BigEndian⟩ =
      .ok (.IPv4 bits bytes)
        ⟨encPrefix (.IPv4 bits bytes), (encPrefix (.IPv4 bits bytes)).length,
          .BigEndian⟩ := by
  have hwf : (RoutePrefix.IPv4 bits bytes).wfb = true := by
    simp only [RoutePrefix.wfb, Bool.and_eq_true, decide_eq_true_eq, List.all_eq_true,
      beq_iff_eq]
    exact ⟨⟨by omega, hlen⟩, hbytes⟩
  constructor
  · rw [empty_big]
    have h := routePrefixWrite_end (.IPv4 bits bytes) []
    simpa using h
  · have h := routePrefixRead_at (.IPv4 bits bytes) hwf [] []
    simpa using h

/-- C8 witness: the /9 prefix with significant bytes [255, 128] from the test suite. -/
theorem c8_witness :
    RoutePrefix.write (.IPv4 9 [255, 128]) (Buffer.empty .BigEndian) =
      ⟨encPrefix (.IPv4 9 [255, 128]), (encPrefix (.IPv4 9 [255, 128])).length,
        .BigEndian⟩ ∧
    RoutePrefix.read ⟨encPrefix (.IPv4 9 [255, 128]), 0, .BigEndian⟩ =
      .ok (.IPv4 9 [255, 128])
        ⟨encPrefix (.IPv4 9 [255, 128]), (encPrefix (.IPv4 9 [255, 128])).length,
          .BigEndian⟩ :=
  c8_prefix_roundtrip 9 [255, 128] (by decide) (by decide) (by decide)

/-- C9 (corrected): only for DECLARED but unimplemented attribute types (a declared
discriminant outside Origin, ASPath, NextHop, Community, LargeCommunity,
MPReachableNLRI, MPUnreachableNLRI) does attribute decode fail with a ReadError; a raw
type byte that is no declared discriminant is an unchecked transmute — undefined
behavior, not an error return — so the claim's range over every unimplemented byte is
wrong. There is indeed no unknown-attribute passthrough. -/
theorem c9_declared_unimplemented_read_error (flagsByte lenByte : Nat) (rest : List Nat)
    (t : AttributeType) (hflags : flagsByte % 16 = 0)
    (ht : t ∉ [AttributeType.Origin, .ASPath, .NextHop, .Community, .LargeCommunity,
      .MPReachableNLRI, .MPUnreachableNLRI])
    (hlen : lenByte ≤ rest.length) :
    Attribute.read ⟨flagsByte :: t.discriminant :: lenByte :: rest, 0, .BigEndian⟩ =
      .fail .ReadError := by
  unfold Attribute.read
  conv_lhs =>
    rw [show (⟨flagsByte :: t.discriminant :: lenByte :: rest, 0, .BigEndian⟩ : Buffer) =
      ⟨[] ++ flagsByte :: (t.discriminant :: lenByte :: rest),
        ([] : List Nat).length, .BigEndian⟩ by simp]
  rw [u8read_at, Res.bind]
  have hfb : AttributeFlags.fromBits flagsByte = some ⟨flagsByte⟩ := by
    simp [AttributeFlags.fromBits, hflags]
  rw [hfb]
  dsimp only
  have h2 : ([] : List Nat) ++ flagsByte :: (t.discriminant :: lenByte :: rest) =
      [flagsByte] ++ t.discriminant :: (lenByte :: rest) := by simp
  have h3 : ([] : List Nat).length + 1 = [flagsByte].length := by simp
  rw [h2, h3, u8read_at, Res.bind, AttributeType.fromRaw_discriminant]
  dsimp only
  have h4 : [flagsByte] ++ t.discriminant :: (lenByte :: rest) =
      [flagsByte, t.discriminant] ++ lenByte :: rest := by simp
  have h5 : [flagsByte].length + 1 = [flagsByte, t.discriminant].length := by simp
  rw [h4, h5, u8read_at, Res.bind]
  have htake : rest = rest.take lenByte ++ rest.drop lenByte :=
    (List.take_append_drop _ _).symm
  have hlt : (rest.take lenByte).length = lenByte := by
    simp [List.length_take]
    omega
  have hrb := readBuffer_at [flagsByte, t.discriminant, lenByte] (rest.take lenByte)
    (rest.drop lenByte) .BigEndian
  rw [hlt] at hrb
  have h6 : [flagsByte, t.discriminant] ++ lenByte :: rest =
      [flagsByte, t.discriminant, lenByte] ++ rest.take lenByte ++ rest.drop lenByte := by
    rw [List.append_assoc, ← htake]
    simp
  have h7 : [flagsByte, t.discriminant].length + 1 =
      [flagsByte, t.discriminant, lenByte].length := by simp
  rw [h6, h7, hrb, Res.bind]
  cases t <;> first | rfl | exact absurd (by decide) ht

/-- C9 witness: the declared but unimplemented type MultiExitDisc (discriminant 4) with
valid flags byte 0 and an empty value fails with ReadError. -/
theorem c9_witness :
    Attribute.read ⟨0 :: AttributeType.MultiExitDisc.discriminant :: 0 :: [], 0,
        .BigEndian⟩ = .fail .ReadError :=
  c9_declared_unimplemented_read_error 0 0 [] .MultiExitDisc (by decide) (by decide)
    (by decide)

/-- C9 counterexample to the claim's full range: the raw type byte 19 is outside the
implemented set, but decode does not fail with a ReadError — it hits the unchecked
transmute (undefined behavior). -/
theorem c9_counterexample :
    Attribute.read ⟨[0, 19, 0], 0, .BigEndian⟩ = .crash .InvalidTransmute := by
  decide

/-- C10: whenever Packet::read succeeds, the cursor has advanced by exactly the declared
header length — 19 header bytes plus header.length − 19 body bytes — regardless of the
message variant, keeping the receive loop framed on message boundaries. -/
theorem c10_read_advances_header_length (b : Buffer) (p : Packet) (b' : Buffer)
    (h : Packet.read b = .ok p b') :
    ∃ (hd : BGPHeader) (hb : Buffer), BGPHeader.read b = .ok hd hb ∧
      b'.bytes = b.bytes ∧ b'.position = b.position + hd.length := by
  unfold Packet.read at h
  obtain ⟨hd, hb, hhd, h⟩ := Res.bind_ok_inv h
  obtain ⟨inner, outer, hinner, h⟩ := Res.bind_ok_inv h
  obtain ⟨hbbytes, hbpos, hlen19⟩ := headerRead_ok_inv hhd
  obtain ⟨hobytes, hopos, _⟩ := readBuffer_ok_inv hinner
  have hbout : b' = outer := by
    cases hty : hd.ty <;> rw [hty] at h
    · exact Res.withBuffer_ok_inv h
    · exact Res.withBuffer_ok_inv h
    · exact Res.withBuffer_ok_inv h
    · injection h with e1 e2
      exact e2.symm
    · injection h with e1 e2
      exact e2.symm
    · simp at h
  refine ⟨hd, hb, hhd, ?_, ?_⟩
  · rw [hbout, hobytes, hbbytes]
  · rw [hbout, hopos, hbpos]
    omega

/-- C10 witness: reading the KeepAlive wire image advances from position 0 to 19, the
declared header length. -/
theorem c10_witness :
    ∃ (hd : BGPHeader) (hb : Buffer),
      BGPHeader.read ⟨encPacket .KeepAlive, 0, .BigEndian⟩ = .ok hd hb ∧
      (⟨encPacket .KeepAlive, 19, .BigEndian⟩ : Buffer).bytes =
        (⟨encPacket .KeepAlive, 0, .BigEndian⟩ : Buffer).bytes ∧
      (⟨encPacket .KeepAlive, 19, .BigEndian⟩ : Buffer).position =
        (⟨encPacket .KeepAlive, 0, .BigEndian⟩ : Buffer).position + hd.length :=
  c10_read_advances_header_length ⟨encPacket .KeepAlive, 0, .BigEndian⟩ .KeepAlive
    ⟨encPacket .KeepAlive, 19, .BigEndian⟩ (by decide)

end ZephyrRoute
